import Mathlib

/-!
# Verification of the dual-MOBI metadata patcher (`dualmetafix_mmap.py`)

This file gives a shallow embedding of the binary-format patcher of the
repository (file `src/dualmetafix_mmap.py`) and proves/refutes the frozen
claims about it.

A byte buffer is modelled as `List Byte` with `Byte := Fin 256`, matching a
Python `bytes` object.  Python slicing `d[a:b]` (with non-negative bounds) is
`(d.drop a).take (b - a)`; slicing clamps out-of-range bounds exactly as in
Python.  `struct.unpack_from`/`struct.pack` failures (short buffer, value out
of the `>L` range) are modelled with the `Except String` monad, as are the
`DualMetaFixException` raises of the source; the exception messages raised by
the source itself are kept verbatim.
-/

set_option autoImplicit false

namespace DMF

/-- A byte, as in a Python `bytes` object. -/
abbrev Byte := Fin 256

instance : OfNat Byte (nat_lit 0) := ⟨⟨0, by decide⟩⟩

/-- Truncate a natural number to a byte (used only to build byte literals). -/
def byte (n : Nat) : Byte := ⟨n % 256, Nat.mod_lt n (by decide)⟩

/-- The byte of `d` at offset `p`, as a natural number (0 past the end;
all reads below check bounds before using this). -/
def bt (d : List Byte) (p : Nat) : Nat := (d.getD p 0).val

/-- Big-endian 32-bit read at `o` (the value of `struct.unpack_from('>L',d,o)`,
assuming the offset is in range). -/
def rd32 (d : List Byte) (o : Nat) : Nat :=
  bt d o * 16777216 + bt d (o + 1) * 65536 + bt d (o + 2) * 256 + bt d (o + 3)

/-- Big-endian 16-bit read at `o` (the value of `struct.unpack_from('>H',d,o)`). -/
def rd16 (d : List Byte) (o : Nat) : Nat := bt d o * 256 + bt d (o + 1)

/-- `getint(data, ofs)` — `struct.unpack_from('>L', data, ofs)`:
fails (struct.error) when fewer than 4 bytes are available at `ofs`. -/
def getint32 (d : List Byte) (o : Nat) : Except String Nat :=
  if o + 4 ≤ d.length then .ok (rd32 d o)
  else .error "struct.error: unpack_from requires more data"

/-- `getint(data, ofs, 'H')` — `struct.unpack_from('>H', data, ofs)`. -/
def getint16 (d : List Byte) (o : Nat) : Except String Nat :=
  if o + 2 ≤ d.length then .ok (rd16 d o)
  else .error "struct.error: unpack_from requires more data"

/-- The 4 bytes of `struct.pack('>L', n)` (for an in-range `n`). -/
def pack32 (n : Nat) : List Byte :=
  [byte (n / 16777216), byte (n / 65536), byte (n / 256), byte n]

/-- `struct.pack('>L', n)` — fails (struct.error) when `n` is out of the
unsigned 32-bit range (Python ints are unbounded and signed). -/
def pack32E (n : Int) : Except String (List Byte) :=
  if 0 ≤ n ∧ n < 4294967296 then .ok (pack32 n.toNat)
  else .error "struct.error: argument out of range"

/-- Python `d[a:b]` for non-negative bounds. -/
def pyslice (d : List Byte) (a b : Nat) : List Byte := (d.drop a).take (b - a)

/-- `writeint(data, ofs, n)` (the `'L'` branch, the only one the patcher uses):
`data[:ofs] + struct.pack('>L', n) + data[ofs+4:]`. -/
def writeint (d : List Byte) (ofs : Nat) (n : Int) : Except String (List Byte) := do
  let p ← pack32E n
  .ok (d.take ofs ++ p ++ d.drop (ofs + 4))

/-! ## Offset constants of the source -/

/-- `number_of_pdb_records = 76`. -/
def number_of_pdb_records : Nat := 76

/-- `first_pdb_record = 78`. -/
def first_pdb_record : Nat := 78

/-- `mobi_header_base = 16`. -/
def mobi_header_base : Nat := 16

/-- `mobi_header_length = 20`. -/
def mobi_header_length : Nat := 20

/-- `mobi_version = 36`. -/
def mobi_version : Nat := 36

/-- `title_offset = 84`. -/
def title_offset : Nat := 84

/-- The bytes of `b'EXTH'`. -/
def exthTag : List Byte := [byte 69, byte 88, byte 84, byte 72]

/-- The bytes of `b'EBOK'`. -/
def ebokBytes : List Byte := [byte 69, byte 66, byte 79, byte 75]

/-! ## Container accessor (`getsecaddr`, `readsection`, `replacesection`) -/

/-- `getsecaddr(datain, secno)`.  `secno` is a natural number here (the source
only ever passes section 0 or a `>L`-unpacked value, both non-negative), so the
`secno < 0` half of the source's range test is vacuous. -/
def getsecaddr (datain : List Byte) (secno : Nat) : Except String (Nat × Nat) := do
  let nsec ← getint16 datain number_of_pdb_records
  if secno ≥ nsec then
    .error "requested section number out of range"
  else do
    let secstart ← getint32 datain (first_pdb_record + secno * 8)
    if secno = nsec - 1 then
      .ok (secstart, datain.length)
    else do
      let secend ← getint32 datain (first_pdb_record + (secno + 1) * 8)
      .ok (secstart, secend)

/-- `readsection(datain, secno)`. -/
def readsection (datain : List Byte) (secno : Nat) : Except String (List Byte) := do
  let (secstart, secend) ← getsecaddr datain secno
  .ok (pyslice datain secstart secend)

/-- `replacesection(datain, secno, secdata)`; the length test
`len(secdata) != secend - secstart` compares a Python (possibly negative) int,
which is `secstart + secdata.length = secend` over naturals. -/
def replacesection (datain : List Byte) (secno : Nat) (secdata : List Byte) :
    Except String (List Byte) := do
  let (secstart, secend) ← getsecaddr datain secno
  if secstart + secdata.length = secend then
    .ok (datain.take secstart ++ secdata ++ datain.drop secend)
  else
    .error "section length change in replacesection"

/-! ## EXTH codec (`get_exth_params`, `add_exth`, `read_exth`, `del_exth`) -/

/-- `get_exth_params(rec0)`. -/
def get_exth_params (rec0 : List Byte) : Except String (Nat × Nat × Nat × Nat) := do
  let hlen ← getint32 rec0 mobi_header_length
  let ebase := mobi_header_base + hlen
  if pyslice rec0 ebase (ebase + 4) = exthTag then do
    let elen ← getint32 rec0 (ebase + 4)
    let enum ← getint32 rec0 (ebase + 8)
    .ok (ebase, elen, enum, rec0.length)
  else
    .error "EXTH tag not found where expected"

/-- `add_exth(rec0, exth_num, exth_bytes)`. -/
def add_exth (rec0 : List Byte) (exth_num : Nat) (exth_bytes : List Byte) :
    Except String (List Byte) := do
  let (ebase, elen, enum, rlen) ← get_exth_params rec0
  let newrecsize := 8 + exth_bytes.length
  let p1 ← pack32E (elen + newrecsize)
  let p2 ← pack32E (enum + 1)
  let p3 ← pack32E exth_num
  let p4 ← pack32E newrecsize
  let newrec0 := rec0.take (ebase + 4) ++ p1 ++ p2 ++ p3 ++ p4 ++ exth_bytes ++
      rec0.drop (ebase + 12)
  let tval ← getint32 newrec0 title_offset
  let newrec0 ← writeint newrec0 title_offset ((tval : Int) + newrecsize)
  -- keep constant record length by removing newrecsize null bytes from end
  let sectail := newrec0.drop (newrec0.length - newrecsize)
  if sectail = List.replicate newrecsize (0 : Byte) then
    .ok (newrec0.take rlen)
  else
    .error "add_exth: trimmed non-null bytes at end of section"

/-- The `while enum > 0` loop of `read_exth`; the loop counter `enum`
decreases by one each iteration. -/
def read_exth_loop (rec0 : List Byte) (exth_num : Nat) :
    Nat → Nat → Except String (List (List Byte))
  | 0, _ => .ok []
  | n + 1, ebase => do
      let exth_id ← getint32 rec0 ebase
      let sz ← getint32 rec0 (ebase + 4)
      let rest ← read_exth_loop rec0 exth_num n (ebase + sz)
      if exth_id = exth_num then
        .ok (pyslice rec0 (ebase + 8) (ebase + sz) :: rest)
      else
        .ok rest

/-- `read_exth(rec0, exth_num)`. -/
def read_exth (rec0 : List Byte) (exth_num : Nat) : Except String (List (List Byte)) := do
  let (ebase, _elen, enum, _rlen) ← get_exth_params rec0
  read_exth_loop rec0 exth_num enum (ebase + 12)

/-- The `while enum_idx < enum` loop of `del_exth`, with `enum - enum_idx`
as fuel; on a type match it rebuilds the section and on fuel exhaustion it
returns `rec0` unchanged. -/
def del_exth_loop (rec0 : List Byte) (exth_num ebase elen enum rlen : Nat) :
    Nat → Nat → Except String (List Byte)
  | 0, _ => .ok rec0
  | k + 1, ebase_idx => do
      let exth_id ← getint32 rec0 ebase_idx
      let exth_size ← getint32 rec0 (ebase_idx + 4)
      if exth_id = exth_num then do
        let tval ← getint32 rec0 title_offset
        let w ← writeint rec0 title_offset ((tval : Int) - exth_size)
        let w := w.take ebase_idx ++ w.drop (ebase_idx + exth_size)
        let p1 ← pack32E ((elen : Int) - exth_size)
        let p2 ← pack32E ((enum : Int) - 1)
        let w := w.take (ebase + 4) ++ p1 ++ p2 ++ w.drop (ebase + 12)
        let w := w ++ List.replicate exth_size (0 : Byte)
        if rlen = w.length then .ok w
        else .error "del_exth: incorrect section size change"
      else
        del_exth_loop rec0 exth_num ebase elen enum rlen k (ebase_idx + exth_size)

/-- `del_exth(rec0, exth_num)`. -/
def del_exth (rec0 : List Byte) (exth_num : Nat) : Except String (List Byte) := do
  let (ebase, elen, enum, rlen) ← get_exth_params rec0
  del_exth_loop rec0 exth_num ebase elen enum rlen enum (ebase + 12)

/-! ## The dual-header patcher (`DualMobiMetaFix.__init__` / `getresult`)

The constructor body is split into the primary-header record chain
(source lines 219–225), the secondary-header record chain (lines 248–254)
and the orchestration; `dualMobiMetaFix` composes them exactly in source
order and returns the pair (`self.datain`, `self.combo`). -/

/-- Source lines 219–225: `del 501; del 113; del 504; add 113 asin;
add 504 asin; add 501 b'EBOK'` on the primary header. -/
def patchRec0First (rec0 asin : List Byte) : Except String (List Byte) := do
  let r1 ← del_exth rec0 501
  let r2 ← del_exth r1 113
  let r3 ← del_exth r2 504
  let r4 ← add_exth r3 113 asin
  let r5 ← add_exth r4 504 asin
  add_exth r5 501 ebokBytes

/-- Source lines 248–254: same three deletions, then `add 504 asin;
add 113 asin; add 501 b'EBOK'` (note the swapped insertion order of the two
identifier records) on the secondary header. -/
def patchRec0Second (rec0 asin : List Byte) : Except String (List Byte) := do
  let r1 ← del_exth rec0 501
  let r2 ← del_exth r1 113
  let r3 ← del_exth r2 504
  let r4 ← add_exth r3 504 asin
  let r5 ← add_exth r4 113 asin
  add_exth r5 501 ebokBytes

/-- `DualMobiMetaFix(infile, asin)` followed by `getresult()`: takes the raw
container bytes (the source reads them from `infile`) and the UTF-8 encoded
identifier, returns the final `self.datain` together with `self.combo`. -/
def dualMobiMetaFix (datain asin : List Byte) : Except String (List Byte × Bool) := do
  let datain_rec0 ← readsection datain 0
  let newrec0 ← patchRec0First datain_rec0 asin
  let d1 ← replacesection datain 0 newrec0
  let ver ← getint32 datain_rec0 mobi_version
  if ver = 8 then
    .ok (d1, false)
  else do
    let exth121 ← read_exth datain_rec0 121
    match exth121 with
    | [] => .ok (d1, false)
    | v :: _ => do
        let datain_kf8 ← getint32 v 0
        if datain_kf8 = 4294967295 then
          .ok (d1, false)
        else do
          let datain_kfrec0 ← readsection d1 datain_kf8
          let newkf ← patchRec0Second datain_kfrec0 asin
          let d2 ← replacesection d1 datain_kf8 newkf
          .ok (d2, true)

/-! ## Decidable equality for `Except` results -/

instance {ε α : Type} [DecidableEq ε] [DecidableEq α] : DecidableEq (Except ε α) := fun a b =>
  match a, b with
  | .error e, .error f => decidable_of_iff (e = f) (by simp)
  | .error _, .ok _ => .isFalse (by simp)
  | .ok _, .error _ => .isFalse (by simp)
  | .ok x, .ok y => decidable_of_iff (x = y) (by simp)

/-! ## Byte-buffer toolkit -/

theorem bt_lt (d : List Byte) (p : Nat) : bt d p < 256 := (d.getD p 0).isLt

theorem bt_eq_getElem (d : List Byte) (p : Nat) : bt d p = ((d[p]?).getD 0).val := by
  simp [bt, List.getD_eq_getD_get?, List.get?_eq_getElem?]

theorem bt_append_left {a : List Byte} (b : List Byte) {p : Nat} (h : p < a.length) :
    bt (a ++ b) p = bt a p := by
  rw [bt_eq_getElem, bt_eq_getElem, List.getElem?_append_left h]

theorem bt_append_right {a : List Byte} (b : List Byte) {p : Nat} (h : a.length ≤ p) :
    bt (a ++ b) p = bt b (p - a.length) := by
  rw [bt_eq_getElem, bt_eq_getElem, List.getElem?_append_right h]

theorem bt_take {d : List Byte} {n p : Nat} (h : p < n) :
    bt (d.take n) p = bt d p := by
  rw [bt_eq_getElem, bt_eq_getElem, List.getElem?_take, if_pos h]

theorem bt_drop (d : List Byte) (n p : Nat) : bt (d.drop n) p = bt d (n + p) := by
  rw [bt_eq_getElem, bt_eq_getElem, List.getElem?_drop]

theorem bt_replicate_zero (n p : Nat) : bt (List.replicate n (0 : Byte)) p = 0 := by
  rw [bt_eq_getElem, List.getElem?_replicate]
  split <;> rfl

theorem bt_past_length {d : List Byte} {p : Nat} (h : d.length ≤ p) : bt d p = 0 := by
  rw [bt, List.getD_eq_default _ _ h]
  rfl

theorem bt_cons_zero (x : Byte) (d : List Byte) : bt (x :: d) 0 = x.val := rfl

theorem bt_cons_succ (x : Byte) (d : List Byte) (p : Nat) : bt (x :: d) (p + 1) = bt d p := rfl

/-- Two byte buffers of the same length whose `bt` views agree are equal. -/
theorem eq_of_bt {a b : List Byte} (hl : a.length = b.length)
    (h : ∀ p, p < a.length → bt a p = bt b p) : a = b := by
  apply List.ext_getElem hl
  intro i h1 h2
  have hb := h i h1
  rw [bt, bt, List.getD_eq_getElem _ _ h1, List.getD_eq_getElem _ _ h2] at hb
  exact Fin.val_injective hb

theorem drop_eq_bt_cons {d : List Byte} {n : Nat} (h : n < d.length) :
    d.drop n = ⟨bt d n, bt_lt d n⟩ :: d.drop (n + 1) := by
  have : (⟨bt d n, bt_lt d n⟩ : Byte) = d.getD n 0 := by
    apply Fin.val_injective; rfl
  rw [this, List.getD_eq_getElem _ _ h]
  exact List.drop_eq_getElem_cons h

/-- `pyslice d a (a+4)` spelt out as the four bytes at `a`, provided they are
in range. -/
theorem pyslice_four {d : List Byte} {a : Nat} (h : a + 4 ≤ d.length) :
    pyslice d a (a + 4) =
      [⟨bt d a, bt_lt d a⟩, ⟨bt d (a+1), bt_lt d (a+1)⟩,
       ⟨bt d (a+2), bt_lt d (a+2)⟩, ⟨bt d (a+3), bt_lt d (a+3)⟩] := by
  have h0 : a < d.length := by omega
  have h1 : a + 1 < d.length := by omega
  have h2 : a + 2 < d.length := by omega
  have h3 : a + 3 < d.length := by omega
  unfold pyslice
  have hba : a + 4 - a = 4 := by omega
  rw [hba, drop_eq_bt_cons h0, drop_eq_bt_cons h1, drop_eq_bt_cons h2, drop_eq_bt_cons h3]
  rfl

theorem pyslice_length {d : List Byte} {a b : Nat} (_hab : a ≤ b) (hb : b ≤ d.length) :
    (pyslice d a b).length = b - a := by
  simp [pyslice]
  omega

theorem bt_pyslice {d : List Byte} {a b p : Nat} (h : p < b - a) :
    bt (pyslice d a b) p = bt d (a + p) := by
  unfold pyslice
  rw [bt_take h, bt_drop]

theorem length_pack32 (n : Nat) : (pack32 n).length = 4 := rfl

theorem bt_pack32_0 (n : Nat) : bt (pack32 n) 0 = n / 16777216 % 256 := rfl

theorem bt_pack32_1 (n : Nat) : bt (pack32 n) 1 = n / 65536 % 256 := rfl

theorem bt_pack32_2 (n : Nat) : bt (pack32 n) 2 = n / 256 % 256 := rfl

theorem bt_pack32_3 (n : Nat) : bt (pack32 n) 3 = n % 256 := rfl

theorem rd32_lt (d : List Byte) (o : Nat) : rd32 d o < 4294967296 := by
  have h0 := bt_lt d o
  have h1 := bt_lt d (o + 1)
  have h2 := bt_lt d (o + 2)
  have h3 := bt_lt d (o + 3)
  unfold rd32
  omega

theorem rd16_lt (d : List Byte) (o : Nat) : rd16 d o < 65536 := by
  have h0 := bt_lt d o
  have h1 := bt_lt d (o + 1)
  unfold rd16
  omega

/-- Reading back a packed 32-bit value. -/
theorem rd32_pack32 (n : Nat) (h : n < 4294967296) : rd32 (pack32 n) 0 = n := by
  show bt (pack32 n) 0 * 16777216 + bt (pack32 n) (0+1) * 65536 +
      bt (pack32 n) (0+2) * 256 + bt (pack32 n) (0+3) = n
  rw [bt_pack32_0]
  show _ + bt (pack32 n) 1 * 65536 + bt (pack32 n) 2 * 256 + bt (pack32 n) 3 = n
  rw [bt_pack32_1, bt_pack32_2, bt_pack32_3]
  omega

/-- Packing a read-back 32-bit value reproduces the bytes. -/
theorem pack32_rd32 {d : List Byte} {o : Nat} (h : o + 4 ≤ d.length) :
    pack32 (rd32 d o) = pyslice d o (o + 4) := by
  rw [pyslice_four h]
  have h0 := bt_lt d o
  have h1 := bt_lt d (o + 1)
  have h2 := bt_lt d (o + 2)
  have h3 := bt_lt d (o + 3)
  have e0 : byte (rd32 d o / 16777216) = ⟨bt d o, bt_lt d o⟩ := by
    apply Fin.val_injective
    show rd32 d o / 16777216 % 256 = bt d o
    unfold rd32
    omega
  have e1 : byte (rd32 d o / 65536) = ⟨bt d (o + 1), bt_lt d (o + 1)⟩ := by
    apply Fin.val_injective
    show rd32 d o / 65536 % 256 = bt d (o + 1)
    unfold rd32
    omega
  have e2 : byte (rd32 d o / 256) = ⟨bt d (o + 2), bt_lt d (o + 2)⟩ := by
    apply Fin.val_injective
    show rd32 d o / 256 % 256 = bt d (o + 2)
    unfold rd32
    omega
  have e3 : byte (rd32 d o) = ⟨bt d (o + 3), bt_lt d (o + 3)⟩ := by
    apply Fin.val_injective
    show rd32 d o % 256 = bt d (o + 3)
    unfold rd32
    omega
  unfold pack32
  rw [e0, e1, e2, e3]

/-- `rd32` only depends on the four bytes it reads. -/
theorem rd32_congr {d1 d2 : List Byte} {o1 o2 : Nat}
    (h : ∀ j, j < 4 → bt d1 (o1 + j) = bt d2 (o2 + j)) : rd32 d1 o1 = rd32 d2 o2 := by
  have e0 := h 0 (by omega)
  have e1 := h 1 (by omega)
  have e2 := h 2 (by omega)
  have e3 := h 3 (by omega)
  simp only [Nat.add_zero] at e0
  unfold rd32
  rw [e0, e1, e2, e3]

theorem rd16_congr {d1 d2 : List Byte} {o1 o2 : Nat}
    (h : ∀ j, j < 2 → bt d1 (o1 + j) = bt d2 (o2 + j)) : rd16 d1 o1 = rd16 d2 o2 := by
  have e0 := h 0 (by omega)
  have e1 := h 1 (by omega)
  simp only [Nat.add_zero] at e0
  unfold rd16
  rw [e0, e1]

/-! ## Splices

Every buffer the patcher builds has the shape `d.take a ++ m ++ d.drop b`
(replace the byte range `[a, b)` of `d` by `m`); `splice` names that shape and
the `bt_splice_*` lemmas read it back pointwise. -/

/-- `d[:a] + m + d[b:]`. -/
def splice (d : List Byte) (a b : Nat) (m : List Byte) : List Byte :=
  d.take a ++ m ++ d.drop b

theorem length_splice {d : List Byte} {a b : Nat} (m : List Byte)
    (ha : a ≤ d.length) : (splice d a b m).length = a + m.length + (d.length - b) := by
  simp [splice]
  omega

theorem bt_splice_lt {d : List Byte} {a b p : Nat} {m : List Byte}
    (hp : p < a) (ha : a ≤ d.length) : bt (splice d a b m) p = bt d p := by
  unfold splice
  rw [List.append_assoc, bt_append_left _ (by simp; omega), bt_take hp]

theorem bt_splice_mid {d : List Byte} {a b p : Nat} {m : List Byte}
    (hp1 : a ≤ p) (hp2 : p < a + m.length) (ha : a ≤ d.length) :
    bt (splice d a b m) p = bt m (p - a) := by
  unfold splice
  rw [List.append_assoc, bt_append_right _ (by simp; omega),
    bt_append_left _ (by simp at hp2 ⊢; omega)]
  congr 1
  simp
  omega

theorem bt_splice_hi {d : List Byte} {a b p : Nat} {m : List Byte}
    (hp : a + m.length ≤ p) (ha : a ≤ d.length) :
    bt (splice d a b m) p = bt d (b + (p - (a + m.length))) := by
  unfold splice
  rw [List.append_assoc, bt_append_right _ (by simp; omega),
    bt_append_right _ (by simp at hp ⊢; omega), bt_drop]
  congr 1
  simp
  omega

theorem rd32_splice_lt {d : List Byte} {a b o : Nat} {m : List Byte}
    (hp : o + 4 ≤ a) (ha : a ≤ d.length) : rd32 (splice d a b m) o = rd32 d o := by
  apply rd32_congr
  intro j hj
  exact bt_splice_lt (by omega) ha

theorem rd16_splice_lt {d : List Byte} {a b o : Nat} {m : List Byte}
    (hp : o + 2 ≤ a) (ha : a ≤ d.length) : rd16 (splice d a b m) o = rd16 d o := by
  apply rd16_congr
  intro j hj
  exact bt_splice_lt (by omega) ha

/-! ## `Except` plumbing and read/write characterizations -/

theorem okBind {α β : Type} (a : α) (f : α → Except String β) :
    (Except.ok a >>= f) = f a := rfl

theorem errBind {α β : Type} (e : String) (f : α → Except String β) :
    ((Except.error e : Except String α) >>= f) = Except.error e := rfl

theorem bind_ok_iff {α β : Type} (x : Except String α) (f : α → Except String β) (r : β) :
    (x >>= f) = .ok r ↔ ∃ a, x = .ok a ∧ f a = .ok r := by
  cases x with
  | error e => simp [errBind]
  | ok a => simp [okBind]

theorem getint32_ok {d : List Byte} {o : Nat} (h : o + 4 ≤ d.length) :
    getint32 d o = .ok (rd32 d o) := by
  simp [getint32, h]

theorem getint32_ok_iff {d : List Byte} {o n : Nat} :
    getint32 d o = .ok n ↔ o + 4 ≤ d.length ∧ n = rd32 d o := by
  unfold getint32
  split <;> simp_all
  exact comm

theorem getint16_ok {d : List Byte} {o : Nat} (h : o + 2 ≤ d.length) :
    getint16 d o = .ok (rd16 d o) := by
  simp [getint16, h]

theorem getint16_ok_iff {d : List Byte} {o n : Nat} :
    getint16 d o = .ok n ↔ o + 2 ≤ d.length ∧ n = rd16 d o := by
  unfold getint16
  split <;> simp_all
  exact comm

theorem pack32E_okN {n : Nat} (h : n < 4294967296) :
    pack32E (n : Int) = .ok (pack32 n) := by
  unfold pack32E
  rw [if_pos]
  · simp
  · constructor
    · exact Int.natCast_nonneg n
    · exact_mod_cast h

theorem pack32E_ok_inv {n : Int} {p : List Byte} (h : pack32E n = .ok p) :
    0 ≤ n ∧ n < 4294967296 ∧ p = pack32 n.toNat := by
  unfold pack32E at h
  split at h
  · injection h with h
    refine ⟨by tauto, by tauto, h.symm⟩
  · exact absurd h (by simp)

/-- A successful `writeint` at an in-range offset, as a `splice`. -/
theorem writeint_ok {d : List Byte} {o : Nat} {n : Nat} (h : n < 4294967296) :
    writeint d o (n : Int) = .ok (splice d o (o + 4) (pack32 n)) := by
  unfold writeint splice
  rw [pack32E_okN h, okBind]

theorem writeint_okI {d : List Byte} {o : Nat} {n : Int} (h0 : 0 ≤ n)
    (h32 : n < 4294967296) :
    writeint d o n = .ok (splice d o (o + 4) (pack32 n.toNat)) := by
  have h32' : n.toNat < 4294967296 := by omega
  have hres := writeint_ok (d := d) (o := o) h32'
  have hcast : ((n.toNat : Nat) : Int) = n := by omega
  rw [hcast] at hres
  exact hres

/-- A successful EXTH-tag comparison forces the tag bytes to be in range. -/
theorem tag_imp_len {h : List Byte} {eb : Nat}
    (ht : pyslice h eb (eb + 4) = exthTag) : eb + 4 ≤ h.length := by
  have hl := congrArg List.length ht
  simp [pyslice, exthTag] at hl
  omega

/-- Success characterization of `get_exth_params`. -/
theorem get_exth_params_ok_iff {h : List Byte} {eb el en rl : Nat} :
    get_exth_params h = .ok (eb, el, en, rl) ↔
      24 ≤ h.length ∧ eb = 16 + rd32 h 20 ∧ eb + 12 ≤ h.length ∧
      pyslice h eb (eb + 4) = exthTag ∧ el = rd32 h (eb + 4) ∧ en = rd32 h (eb + 8) ∧
      rl = h.length := by
  constructor
  · intro H
    unfold get_exth_params at H
    rw [bind_ok_iff] at H
    obtain ⟨hlen, hh, H⟩ := H
    rw [getint32_ok_iff] at hh
    unfold mobi_header_length at hh
    obtain ⟨h24, rfl⟩ := hh
    simp only [mobi_header_base] at H
    split at H
    case isFalse => exact absurd H (by simp)
    case isTrue htag =>
      rw [bind_ok_iff] at H
      obtain ⟨elen, he, H⟩ := H
      rw [bind_ok_iff] at H
      obtain ⟨enum, hn, H⟩ := H
      rw [getint32_ok_iff] at he hn
      obtain ⟨h8, rfl⟩ := he
      obtain ⟨h12, rfl⟩ := hn
      injection H with H
      have h1 := congrArg (fun q => q.1) H
      have h2 := congrArg (fun q => q.2.1) H
      have h3 := congrArg (fun q => q.2.2.1) H
      have h4 := congrArg (fun q => q.2.2.2) H
      simp only [] at h1 h2 h3 h4
      subst h1
      subst h2
      subst h3
      subst h4
      exact ⟨by omega, rfl, by omega, htag, rfl, rfl, rfl⟩
  · rintro ⟨h24, rfl, h12, htag, rfl, rfl, rfl⟩
    unfold get_exth_params
    rw [show getint32 h mobi_header_length = .ok (rd32 h 20) from
      getint32_ok (by unfold mobi_header_length; omega), okBind]
    simp only [mobi_header_base]
    rw [if_pos htag,
      show getint32 h (16 + rd32 h 20 + 4) = .ok (rd32 h (16 + rd32 h 20 + 4)) from
        getint32_ok (by omega), okBind,
      show getint32 h (16 + rd32 h 20 + 8) = .ok (rd32 h (16 + rd32 h 20 + 8)) from
        getint32_ok (by omega), okBind]

/-! ## The record walk

`exthWalk d n ofs` performs exactly the reads of the `read_exth` /
`del_exth` loops, returning the `(offset, type id, declared size)` triple of
each of the `n` records together with the final offset. -/

def exthWalk (d : List Byte) : Nat → Nat → Except String (List (Nat × Nat × Nat) × Nat)
  | 0, ofs => .ok ([], ofs)
  | n + 1, ofs => do
      let id ← getint32 d ofs
      let sz ← getint32 d (ofs + 4)
      let (rest, e) ← exthWalk d n (ofs + sz)
      .ok ((ofs, id, sz) :: rest, e)

theorem exthWalk_zero (d : List Byte) (ofs : Nat) : exthWalk d 0 ofs = .ok ([], ofs) := rfl

theorem exthWalk_succ_inv {d : List Byte} {n ofs : Nat} {L : List (Nat × Nat × Nat)}
    {e : Nat} (H : exthWalk d (n + 1) ofs = .ok (L, e)) :
    ∃ rest, ofs + 8 ≤ d.length ∧
      exthWalk d n (ofs + rd32 d (ofs + 4)) = .ok (rest, e) ∧
      L = (ofs, rd32 d ofs, rd32 d (ofs + 4)) :: rest := by
  unfold exthWalk at H
  rw [bind_ok_iff] at H
  obtain ⟨id, hid, H⟩ := H
  rw [bind_ok_iff] at H
  obtain ⟨sz, hsz, H⟩ := H
  rw [bind_ok_iff] at H
  obtain ⟨⟨rest, e2⟩, hrest, H⟩ := H
  rw [getint32_ok_iff] at hid hsz
  obtain ⟨hlen1, rfl⟩ := hid
  obtain ⟨hlen2, rfl⟩ := hsz
  injection H with H
  have h1 := congrArg (fun q => q.1) H
  have h2 := congrArg (fun q => q.2) H
  simp only [] at h1 h2
  subst h2
  subst h1
  exact ⟨rest, by omega, hrest, rfl⟩

theorem exthWalk_succ_intro {d : List Byte} {n ofs : Nat} {rest : List (Nat × Nat × Nat)}
    {e : Nat} (hlen : ofs + 8 ≤ d.length)
    (H : exthWalk d n (ofs + rd32 d (ofs + 4)) = .ok (rest, e)) :
    exthWalk d (n + 1) ofs = .ok ((ofs, rd32 d ofs, rd32 d (ofs + 4)) :: rest, e) := by
  unfold exthWalk
  rw [getint32_ok (by omega), okBind, getint32_ok (by omega), okBind, H, okBind]

theorem exthWalk_length {d : List Byte} {n ofs : Nat} {L : List (Nat × Nat × Nat)}
    {e : Nat} (H : exthWalk d n ofs = .ok (L, e)) : L.length = n := by
  induction n generalizing ofs L e with
  | zero => rw [exthWalk_zero] at H; injection H with H; cases H; rfl
  | succ n ih =>
      obtain ⟨rest, _, hrest, rfl⟩ := exthWalk_succ_inv H
      simp [ih hrest]

theorem exthWalk_le {d : List Byte} {n ofs : Nat} {L : List (Nat × Nat × Nat)}
    {e : Nat} (H : exthWalk d n ofs = .ok (L, e)) : ofs ≤ e := by
  induction n generalizing ofs L e with
  | zero => rw [exthWalk_zero] at H; injection H with H; cases H; omega
  | succ n ih =>
      obtain ⟨rest, _, hrest, rfl⟩ := exthWalk_succ_inv H
      have := ih hrest
      omega

theorem exthWalk_mem {d : List Byte} {n ofs : Nat} {L : List (Nat × Nat × Nat)}
    {e : Nat} (H : exthWalk d n ofs = .ok (L, e)) :
    ∀ r ∈ L, ofs ≤ r.1 ∧ r.1 + r.2.2 ≤ e ∧ r.1 + 8 ≤ d.length ∧
      r.2.1 = rd32 d r.1 ∧ r.2.2 = rd32 d (r.1 + 4) := by
  induction n generalizing ofs L e with
  | zero => rw [exthWalk_zero] at H; injection H with H; cases H; simp
  | succ n ih =>
      obtain ⟨rest, hlen, hrest, rfl⟩ := exthWalk_succ_inv H
      intro r hr
      rcases List.mem_cons.mp hr with rfl | hr
      · have := exthWalk_le hrest
        refine ⟨le_refl _, ?_, hlen, rfl, rfl⟩
        show ofs + rd32 d (ofs + 4) ≤ e
        omega
      · have hr' := ih hrest r hr
        exact ⟨by omega, hr'.2.1, hr'.2.2.1, hr'.2.2.2.1, hr'.2.2.2.2⟩

theorem exthWalk_zero_inv {d : List Byte} {ofs : Nat} {L : List (Nat × Nat × Nat)}
    {e : Nat} (H : exthWalk d 0 ofs = .ok (L, e)) : L = [] ∧ e = ofs := by
  rw [exthWalk_zero] at H
  injection H with H
  have h1 := congrArg (fun q => q.1) H
  have h2 := congrArg (fun q => q.2) H
  simp only [] at h1 h2
  exact ⟨h1.symm, h2.symm⟩

theorem exthWalk_append {d : List Byte} {n1 n2 ofs m : Nat}
    {L1 L2 : List (Nat × Nat × Nat)} {e : Nat}
    (H1 : exthWalk d n1 ofs = .ok (L1, m)) (H2 : exthWalk d n2 m = .ok (L2, e)) :
    exthWalk d (n1 + n2) ofs = .ok (L1 ++ L2, e) := by
  induction n1 generalizing ofs L1 with
  | zero =>
      obtain ⟨rfl, rfl⟩ := exthWalk_zero_inv H1
      simpa using H2
  | succ n ih =>
      obtain ⟨rest, hlen, hrest, rfl⟩ := exthWalk_succ_inv H1
      have hrec := ih hrest
      have hidx : n + 1 + n2 = (n + n2) + 1 := by omega
      rw [hidx]
      have := exthWalk_succ_intro hlen hrec
      simpa using this

theorem exthWalk_split {d : List Byte} {n ofs : Nat}
    {L1 L2 : List (Nat × Nat × Nat)} {e : Nat}
    (H : exthWalk d n ofs = .ok (L1 ++ L2, e)) :
    ∃ m, exthWalk d L1.length ofs = .ok (L1, m) ∧ exthWalk d L2.length m = .ok (L2, e) := by
  induction L1 generalizing n ofs with
  | nil =>
      have hn := exthWalk_length H
      simp at hn
      subst hn
      exact ⟨ofs, exthWalk_zero d ofs, by simpa using H⟩
  | cons r L1' ih =>
      cases n with
      | zero =>
          have hn := exthWalk_length H
          simp at hn
      | succ n' =>
          obtain ⟨rest, hlen, hrest, hL⟩ := exthWalk_succ_inv H
          have hhead : r = (ofs, rd32 d ofs, rd32 d (ofs + 4)) := by
            have := congrArg (fun l => List.head? l) hL
            simpa using this
          have htail : L1' ++ L2 = rest := by
            have := congrArg (fun l => List.tail l) hL
            simpa using this
          rw [← htail] at hrest
          obtain ⟨m, w1, w2⟩ := ih hrest
          refine ⟨m, ?_, w2⟩
          have := exthWalk_succ_intro hlen w1
          rw [hhead]
          simpa using this

/-- Walking the same record layout at a shifted position in another buffer:
if `d'` agrees with `d` on the walked region, up to moving offset `ofs` to
`ofs'`, the walk in `d'` succeeds with shifted offsets and the same ids and
sizes. -/
theorem exthWalk_affine {d : List Byte} {n ofs : Nat} {L : List (Nat × Nat × Nat)}
    {e : Nat} (H : exthWalk d n ofs = .ok (L, e)) (hsz : ∀ r ∈ L, 8 ≤ r.2.2)
    {d' : List Byte} {ofs' : Nat}
    (hreg : ∀ p, ofs ≤ p → p < e → bt d' (ofs' + (p - ofs)) = bt d p)
    (hlen : ofs' + (e - ofs) ≤ d'.length) :
    exthWalk d' n ofs' =
      .ok (L.map (fun r => (ofs' + (r.1 - ofs), r.2.1, r.2.2)), ofs' + (e - ofs)) := by
  induction n generalizing ofs ofs' L with
  | zero =>
      obtain ⟨rfl, rfl⟩ := exthWalk_zero_inv H
      simp [exthWalk_zero]
  | succ n ih =>
      obtain ⟨rest, hl8, hrest, rfl⟩ := exthWalk_succ_inv H
      have hsz0 : 8 ≤ rd32 d (ofs + 4) := by
        have := hsz _ (List.mem_cons_self _ _)
        simpa using this
      have hofse : ofs + rd32 d (ofs + 4) ≤ e := exthWalk_le hrest
      have hid' : rd32 d' ofs' = rd32 d ofs := by
        apply rd32_congr
        intro j hj
        have hx := hreg (ofs + j) (by omega) (by omega)
        have hy : ofs' + (ofs + j - ofs) = ofs' + j := by omega
        rwa [hy] at hx
      have hsz' : rd32 d' (ofs' + 4) = rd32 d (ofs + 4) := by
        apply rd32_congr
        intro j hj
        have hx := hreg (ofs + 4 + j) (by omega) (by omega)
        have hy : ofs' + (ofs + 4 + j - ofs) = ofs' + 4 + j := by omega
        rwa [hy] at hx
      have hreg2 : ∀ p, ofs + rd32 d (ofs + 4) ≤ p → p < e →
          bt d' (ofs' + rd32 d (ofs + 4) + (p - (ofs + rd32 d (ofs + 4)))) = bt d p := by
        intro p hp1 hp2
        have hy : ofs' + rd32 d (ofs + 4) + (p - (ofs + rd32 d (ofs + 4))) =
            ofs' + (p - ofs) := by omega
        rw [hy]
        exact hreg p (by omega) hp2
      have hlen2 : ofs' + rd32 d (ofs + 4) + (e - (ofs + rd32 d (ofs + 4))) ≤ d'.length := by
        omega
      have ihres := ih hrest (fun r hr => hsz r (List.mem_cons_of_mem _ hr)) hreg2 hlen2
      have hmap : rest.map (fun r =>
            (ofs' + rd32 d (ofs + 4) + (r.1 - (ofs + rd32 d (ofs + 4))), r.2.1, r.2.2)) =
          rest.map (fun r => (ofs' + (r.1 - ofs), r.2.1, r.2.2)) := by
        apply List.map_congr_left
        intro r hr
        have hm := exthWalk_mem hrest r hr
        have hy : ofs' + rd32 d (ofs + 4) + (r.1 - (ofs + rd32 d (ofs + 4))) =
            ofs' + (r.1 - ofs) := by omega
        rw [hy]
      rw [hmap] at ihres
      have hend : ofs' + rd32 d (ofs + 4) + (e - (ofs + rd32 d (ofs + 4))) =
          ofs' + (e - ofs) := by omega
      rw [hend] at ihres
      rw [← hsz'] at ihres
      have hfin := exthWalk_succ_intro (show ofs' + 8 ≤ d'.length by omega) ihres
      rw [hfin]
      rw [hsz', hid']
      simp

theorem pyslice_affine {d d' : List Byte} {a b a' : Nat}
    (hab : a ≤ b) (hb : b ≤ d.length) (hb' : a' + (b - a) ≤ d'.length)
    (hreg : ∀ p, a ≤ p → p < b → bt d' (a' + (p - a)) = bt d p) :
    pyslice d' a' (a' + (b - a)) = pyslice d a b := by
  apply eq_of_bt
  · rw [pyslice_length (by omega) hb', pyslice_length hab hb]
    omega
  · intro p hp
    rw [pyslice_length (by omega) hb'] at hp
    rw [bt_pyslice (by omega), bt_pyslice (by omega)]
    have hx := hreg (a + p) (by omega) (by omega)
    have hy : a' + (a + p - a) = a' + p := by omega
    rwa [hy] at hx

/-! ## The loops of `read_exth` and `del_exth`, through the walk -/

theorem read_exth_loop_eq_walk {d : List Byte} {t n ofs : Nat}
    {L : List (Nat × Nat × Nat)} {e : Nat} (H : exthWalk d n ofs = .ok (L, e)) :
    read_exth_loop d t n ofs =
      .ok (L.filterMap (fun r =>
        if r.2.1 = t then some (pyslice d (r.1 + 8) (r.1 + r.2.2)) else none)) := by
  induction n generalizing ofs L e with
  | zero =>
      obtain ⟨rfl, rfl⟩ := exthWalk_zero_inv H
      rfl
  | succ n ih =>
      obtain ⟨rest, hl8, hrest, rfl⟩ := exthWalk_succ_inv H
      unfold read_exth_loop
      rw [getint32_ok (by omega), okBind, getint32_ok (by omega), okBind, ih hrest, okBind]
      by_cases hid : rd32 d ofs = t
      · rw [if_pos hid]
        simp [List.filterMap_cons, hid]
      · rw [if_neg hid]
        simp [List.filterMap_cons, hid]

theorem del_exth_loop_nomatch {d : List Byte} {t eb el en rl n ofs : Nat}
    {L : List (Nat × Nat × Nat)} {e : Nat} (H : exthWalk d n ofs = .ok (L, e))
    (hno : ∀ r ∈ L, r.2.1 ≠ t) :
    del_exth_loop d t eb el en rl n ofs = .ok d := by
  induction n generalizing ofs L e with
  | zero => rfl
  | succ n ih =>
      obtain ⟨rest, hl8, hrest, rfl⟩ := exthWalk_succ_inv H
      unfold del_exth_loop
      rw [getint32_ok (by omega), okBind, getint32_ok (by omega), okBind]
      have hne : rd32 d ofs ≠ t := by
        have := hno _ (List.mem_cons_self _ _)
        simpa using this
      rw [if_neg hne]
      exact ih hrest (fun r hr => hno r (List.mem_cons_of_mem _ hr))

/-- The buffer `del_exth` rebuilds when it removes a record of declared size
`sz` at offset `o` (fields `eb`, `el`, `en` from the original parse). -/
def delRebuild (d : List Byte) (eb el en o sz : Nat) : List Byte :=
  splice (splice (splice d 84 88 (pack32 (rd32 d 84 - sz))) o (o + sz) [])
    (eb + 4) (eb + 12) (pack32 (el - sz) ++ pack32 (en - 1)) ++
    List.replicate sz (0 : Byte)

theorem del_exth_loop_match {d : List Byte} {t eb el en rl n ofs : Nat}
    {pre post : List (Nat × Nat × Nat)} {o sz e : Nat}
    (H : exthWalk d n ofs = .ok (pre ++ (o, t, sz) :: post, e))
    (hpre : ∀ r ∈ pre, r.2.1 ≠ t)
    (h88 : 88 ≤ d.length) (hszt : sz ≤ rd32 d 84) (hszel : sz ≤ el)
    (hel32 : el < 4294967296) (hen1 : 1 ≤ en) (hen32 : en < 4294967296) :
    del_exth_loop d t eb el en rl n ofs =
      if rl = (delRebuild d eb el en o sz).length then .ok (delRebuild d eb el en o sz)
      else .error "del_exth: incorrect section size change" := by
  induction pre generalizing n ofs with
  | nil =>
      cases n with
      | zero =>
          have hn := exthWalk_length H
          simp at hn
      | succ n' =>
          obtain ⟨rest, hl8, hrest, hL⟩ := exthWalk_succ_inv H
          have hhead : (o, t, sz) = (ofs, rd32 d ofs, rd32 d (ofs + 4)) := by
            have := congrArg (fun l => List.head? l) hL
            simpa using this
          have ho : o = ofs := congrArg (fun q => q.1) hhead
          have hid : t = rd32 d ofs := congrArg (fun q => q.2.1) hhead
          have hsz' : sz = rd32 d (ofs + 4) := congrArg (fun q => q.2.2) hhead
          subst ho
          subst hsz'
          rw [hid]
          unfold del_exth_loop
          rw [getint32_ok (by omega), okBind, getint32_ok (by omega), okBind, if_pos rfl]
          simp only [title_offset]
          rw [getint32_ok (show 84 + 4 ≤ d.length by omega), okBind]
          have ht32 := rd32_lt d 84
          have hwr := writeint_okI (d := d) (o := 84)
            (n := ((rd32 d 84 : Int) - rd32 d (o + 4)))
            (by omega) (by omega)
          rw [hwr, okBind]
          have htn : (((rd32 d 84 : Int) - rd32 d (o + 4))).toNat =
              rd32 d 84 - rd32 d (o + 4) := by omega
          have hc1 : ((el : Int) - rd32 d (o + 4)) =
              ((el - rd32 d (o + 4) : Nat) : Int) := by
            omega
          have hc2 : ((en : Int) - 1) = ((en - 1 : Nat) : Int) := by omega
          have hp1 := pack32E_okN (n := el - rd32 d (o + 4)) (by omega)
          have hp2 := pack32E_okN (n := en - 1) (by omega)
          rw [htn, hc1, hp1, okBind, hc2, hp2, okBind]
          have hfin : ∀ W1 W2 : List Byte, W1 = W2 →
              (if rl = W1.length then Except.ok W1
                else (Except.error "del_exth: incorrect section size change" :
                  Except String (List Byte))) =
              (if rl = W2.length then Except.ok W2
                else Except.error "del_exth: incorrect section size change") := by
            intro W1 W2 hW
            rw [hW]
          apply hfin
          unfold delRebuild splice
          simp [List.append_assoc]
  | cons r pre' ih =>
      cases n with
      | zero =>
          have hn := exthWalk_length H
          simp at hn
      | succ n' =>
          obtain ⟨rest, hl8, hrest, hL⟩ := exthWalk_succ_inv H
          have hhead : r = (ofs, rd32 d ofs, rd32 d (ofs + 4)) := by
            have := congrArg (fun l => List.head? l) hL
            simpa using this
          have htail : pre' ++ (o, t, sz) :: post = rest := by
            have := congrArg (fun l => List.tail l) hL
            simpa using this
          rw [← htail] at hrest
          unfold del_exth_loop
          rw [getint32_ok (by omega), okBind, getint32_ok (by omega), okBind]
          have hne : rd32 d ofs ≠ t := by
            have := hpre r (List.mem_cons_self _ _)
            rw [hhead] at this
            simpa using this
          rw [if_neg hne]
          exact ih hrest (fun q hq => hpre q (List.mem_cons_of_mem _ hq))

/-! ## Well-formed header sections

`ExthOk h eb el en L e` packages a successful `get_exth_params` parse of the
section `h` together with a successful record walk: `eb` is the EXTH base,
`el`/`en` the declared length and count, `L` the walked records and `e` the
end offset of the record area.  The extra structural facts (`title`: the
fixed Title Offset field at byte 84 lies before the EXTH block, as in every
real MOBI header; `sizes`: declared record sizes include their own 8-byte
header; `fits`: the record area lies inside the section) are what the
correctness lemmas below need. -/

structure ExthOk (h : List Byte) (eb el en : Nat) (L : List (Nat × Nat × Nat))
    (e : Nat) : Prop where
  params : get_exth_params h = .ok (eb, el, en, h.length)
  title : 88 ≤ eb
  walk : exthWalk h en (eb + 12) = .ok (L, e)
  sizes : ∀ r ∈ L, 8 ≤ r.2.2
  fits : e ≤ h.length

namespace ExthOk

variable {h : List Byte} {eb el en : Nat} {L : List (Nat × Nat × Nat)} {e : Nat}

theorem eb12 (W : ExthOk h eb el en L e) : eb + 12 ≤ h.length :=
  (get_exth_params_ok_iff.mp W.params).2.2.1

theorem ebval (W : ExthOk h eb el en L e) : eb = 16 + rd32 h 20 :=
  (get_exth_params_ok_iff.mp W.params).2.1

theorem tag (W : ExthOk h eb el en L e) : pyslice h eb (eb + 4) = exthTag :=
  (get_exth_params_ok_iff.mp W.params).2.2.2.1

theorem elval (W : ExthOk h eb el en L e) : el = rd32 h (eb + 4) :=
  (get_exth_params_ok_iff.mp W.params).2.2.2.2.1

theorem enval (W : ExthOk h eb el en L e) : en = rd32 h (eb + 8) :=
  (get_exth_params_ok_iff.mp W.params).2.2.2.2.2.1

theorem estart (W : ExthOk h eb el en L e) : eb + 12 ≤ e := exthWalk_le W.walk

theorem count (W : ExthOk h eb el en L e) : L.length = en := exthWalk_length W.walk

end ExthOk

/-- The payload list `read_exth` extracts, described from the walk. -/
def readFromWalk (h : List Byte) (L : List (Nat × Nat × Nat)) (t : Nat) :
    List (List Byte) :=
  L.filterMap (fun r => if r.2.1 = t then some (pyslice h (r.1 + 8) (r.1 + r.2.2)) else none)

theorem read_exth_wf {h : List Byte} {eb el en : Nat} {L : List (Nat × Nat × Nat)}
    {e : Nat} (W : ExthOk h eb el en L e) (t : Nat) :
    read_exth h t = .ok (readFromWalk h L t) := by
  unfold read_exth
  rw [W.params, okBind]
  exact read_exth_loop_eq_walk W.walk

theorem del_exth_wf_nomatch {h : List Byte} {eb el en : Nat}
    {L : List (Nat × Nat × Nat)} {e : Nat} (W : ExthOk h eb el en L e) {t : Nat}
    (hno : ∀ r ∈ L, r.2.1 ≠ t) : del_exth h t = .ok h := by
  unfold del_exth
  rw [W.params, okBind]
  exact del_exth_loop_nomatch W.walk hno

theorem del_exth_wf_found {h : List Byte} {eb el en : Nat}
    {L : List (Nat × Nat × Nat)} {e : Nat} (W : ExthOk h eb el en L e) {t : Nat}
    {pre post : List (Nat × Nat × Nat)} {o sz : Nat}
    (hL : L = pre ++ (o, t, sz) :: post) (hpre : ∀ r ∈ pre, r.2.1 ≠ t)
    (hszt : sz ≤ rd32 h 84) (hszel : sz ≤ el)
    (hel32 : el < 4294967296) (hen32 : en < 4294967296) :
    del_exth h t =
      if h.length = (delRebuild h eb el en o sz).length then
        .ok (delRebuild h eb el en o sz)
      else .error "del_exth: incorrect section size change" := by
  have hen1 : 1 ≤ en := by
    have := W.count
    rw [hL] at this
    simp at this
    omega
  have h88 : 88 ≤ h.length := by
    have := W.eb12
    have := W.title
    omega
  unfold del_exth
  rw [W.params, okBind]
  exact del_exth_loop_match (hL ▸ W.walk) hpre h88 hszt hszel hel32 hen1 hen32

/-! ## Pointwise description of `delRebuild`

Throughout: `h` the original section, `eb` the EXTH base with `88 ≤ eb`,
the removed record at `[o, o + sz)` with `eb + 12 ≤ o` and
`o + sz ≤ h.length`. -/

theorem splice_title_length {h : List Byte} (v : Nat) (hl : 88 ≤ h.length) :
    (splice h 84 88 (pack32 v)).length = h.length := by
  rw [length_splice _ (by omega), length_pack32]
  omega

theorem delS2_length {h : List Byte} {o sz : Nat} (v : Nat)
    (ho : 100 ≤ o) (hoe : o + sz ≤ h.length) :
    (splice (splice h 84 88 (pack32 v)) o (o + sz) []).length = h.length - sz := by
  have l1 : (splice h 84 88 (pack32 v)).length = h.length :=
    splice_title_length v (by omega)
  rw [length_splice _ (by rw [l1]; omega), l1]
  simp
  omega

theorem delS3_length {h : List Byte} {eb o sz : Nat} (v w1 w2 : Nat)
    (hbe : 88 ≤ eb) (ho : eb + 12 ≤ o) (hoe : o + sz ≤ h.length) :
    (splice (splice (splice h 84 88 (pack32 v)) o (o + sz) [])
      (eb + 4) (eb + 12) (pack32 w1 ++ pack32 w2)).length = h.length - sz := by
  have l2 := delS2_length (h := h) v (by omega) hoe
  rw [length_splice _ (by rw [l2]; omega), l2]
  simp [length_pack32]
  omega

theorem delRebuild_length {h : List Byte} {eb el en o sz : Nat}
    (hbe : 88 ≤ eb) (ho : eb + 12 ≤ o) (hoe : o + sz ≤ h.length) :
    (delRebuild h eb el en o sz).length = h.length := by
  unfold delRebuild
  rw [List.length_append, delS3_length _ _ _ hbe ho hoe, List.length_replicate]
  omega

theorem bt_delRebuild_lo {h : List Byte} {eb el en o sz p : Nat}
    (hbe : 88 ≤ eb) (ho : eb + 12 ≤ o) (hoe : o + sz ≤ h.length)
    (hp : p < 84) :
    bt (delRebuild h eb el en o sz) p = bt h p := by
  have l1 := splice_title_length (h := h) (rd32 h 84 - sz) (by omega)
  have l2 := delS2_length (h := h) (rd32 h 84 - sz) (by omega) hoe
  have l3 := delS3_length (h := h) (rd32 h 84 - sz) (el - sz) (en - 1) hbe ho hoe
  unfold delRebuild
  rw [bt_append_left _ (by rw [l3]; omega),
    bt_splice_lt (by omega) (by rw [l2]; omega),
    bt_splice_lt (by omega) (by rw [l1]; omega),
    bt_splice_lt (by omega) (by omega)]

theorem bt_delRebuild_title {h : List Byte} {eb el en o sz p : Nat}
    (hbe : 88 ≤ eb) (ho : eb + 12 ≤ o) (hoe : o + sz ≤ h.length)
    (hp1 : 84 ≤ p) (hp2 : p < 88) :
    bt (delRebuild h eb el en o sz) p = bt (pack32 (rd32 h 84 - sz)) (p - 84) := by
  have l1 := splice_title_length (h := h) (rd32 h 84 - sz) (by omega)
  have l2 := delS2_length (h := h) (rd32 h 84 - sz) (by omega) hoe
  have l3 := delS3_length (h := h) (rd32 h 84 - sz) (el - sz) (en - 1) hbe ho hoe
  unfold delRebuild
  rw [bt_append_left _ (by rw [l3]; omega),
    bt_splice_lt (by omega) (by rw [l2]; omega),
    bt_splice_lt (by omega) (by rw [l1]; omega),
    bt_splice_mid hp1 (by rw [length_pack32]; omega) (by omega)]

theorem bt_delRebuild_pre {h : List Byte} {eb el en o sz p : Nat}
    (hbe : 88 ≤ eb) (ho : eb + 12 ≤ o) (hoe : o + sz ≤ h.length)
    (hp1 : 88 ≤ p) (hp2 : p < eb + 4) :
    bt (delRebuild h eb el en o sz) p = bt h p := by
  have l1 := splice_title_length (h := h) (rd32 h 84 - sz) (by omega)
  have l2 := delS2_length (h := h) (rd32 h 84 - sz) (by omega) hoe
  have l3 := delS3_length (h := h) (rd32 h 84 - sz) (el - sz) (en - 1) hbe ho hoe
  unfold delRebuild
  rw [bt_append_left _ (by rw [l3]; omega),
    bt_splice_lt (by omega) (by rw [l2]; omega),
    bt_splice_lt (by omega) (by rw [l1]; omega),
    bt_splice_hi (by rw [length_pack32]; omega) (by omega)]
  congr 1
  rw [length_pack32]
  omega

theorem bt_delRebuild_el {h : List Byte} {eb el en o sz p : Nat}
    (hbe : 88 ≤ eb) (ho : eb + 12 ≤ o) (hoe : o + sz ≤ h.length)
    (hp1 : eb + 4 ≤ p) (hp2 : p < eb + 8) :
    bt (delRebuild h eb el en o sz) p = bt (pack32 (el - sz)) (p - (eb + 4)) := by
  have l2 := delS2_length (h := h) (rd32 h 84 - sz) (by omega) hoe
  have l3 := delS3_length (h := h) (rd32 h 84 - sz) (el - sz) (en - 1) hbe ho hoe
  unfold delRebuild
  rw [bt_append_left _ (by rw [l3]; omega),
    bt_splice_mid hp1 (by simp [length_pack32]; omega) (by rw [l2]; omega),
    bt_append_left _ (by rw [length_pack32]; omega)]

theorem bt_delRebuild_en {h : List Byte} {eb el en o sz p : Nat}
    (hbe : 88 ≤ eb) (ho : eb + 12 ≤ o) (hoe : o + sz ≤ h.length)
    (hp1 : eb + 8 ≤ p) (hp2 : p < eb + 12) :
    bt (delRebuild h eb el en o sz) p = bt (pack32 (en - 1)) (p - (eb + 8)) := by
  have l2 := delS2_length (h := h) (rd32 h 84 - sz) (by omega) hoe
  have l3 := delS3_length (h := h) (rd32 h 84 - sz) (el - sz) (en - 1) hbe ho hoe
  unfold delRebuild
  rw [bt_append_left _ (by rw [l3]; omega),
    bt_splice_mid (by omega) (by simp [length_pack32]; omega) (by rw [l2]; omega),
    bt_append_right _ (by rw [length_pack32]; omega)]
  have hix : p - (eb + 4) - (pack32 (el - sz)).length = p - (eb + 8) := by
    rw [length_pack32]
    omega
  rw [hix]

theorem bt_delRebuild_mid {h : List Byte} {eb el en o sz p : Nat}
    (hbe : 88 ≤ eb) (ho : eb + 12 ≤ o) (hoe : o + sz ≤ h.length)
    (hp1 : eb + 12 ≤ p) (hp2 : p < o) :
    bt (delRebuild h eb el en o sz) p = bt h p := by
  have l1 := splice_title_length (h := h) (rd32 h 84 - sz) (by omega)
  have l2 := delS2_length (h := h) (rd32 h 84 - sz) (by omega) hoe
  have l3 := delS3_length (h := h) (rd32 h 84 - sz) (el - sz) (en - 1) hbe ho hoe
  unfold delRebuild
  rw [bt_append_left _ (by rw [l3]; omega),
    bt_splice_hi (by simp [length_pack32]; omega) (by rw [l2]; omega)]
  have hidx : eb + 12 + (p - (eb + 4 + (pack32 (el - sz) ++ pack32 (en - 1)).length)) = p := by
    simp [length_pack32]
    omega
  rw [hidx, bt_splice_lt (by omega) (by rw [l1]; omega),
    bt_splice_hi (by rw [length_pack32]; omega) (by omega)]
  congr 1
  rw [length_pack32]
  omega

theorem bt_delRebuild_shift {h : List Byte} {eb el en o sz p : Nat}
    (hbe : 88 ≤ eb) (ho : eb + 12 ≤ o) (hoe : o + sz ≤ h.length)
    (hp1 : o ≤ p) (hp2 : p < h.length - sz) :
    bt (delRebuild h eb el en o sz) p = bt h (p + sz) := by
  have l1 := splice_title_length (h := h) (rd32 h 84 - sz) (by omega)
  have l2 := delS2_length (h := h) (rd32 h 84 - sz) (by omega) hoe
  have l3 := delS3_length (h := h) (rd32 h 84 - sz) (el - sz) (en - 1) hbe ho hoe
  unfold delRebuild
  rw [bt_append_left _ (by rw [l3]; omega),
    bt_splice_hi (by simp [length_pack32]; omega) (by rw [l2]; omega)]
  have hidx : eb + 12 + (p - (eb + 4 + (pack32 (el - sz) ++ pack32 (en - 1)).length)) = p := by
    simp [length_pack32]
    omega
  rw [hidx, bt_splice_hi (by simp; omega) (by rw [l1]; omega)]
  have hidx2 : o + sz + (p - (o + ([] : List Byte).length)) = p + sz := by
    simp
    omega
  rw [hidx2, bt_splice_hi (by rw [length_pack32]; omega) (by omega)]
  congr 1
  rw [length_pack32]
  omega

theorem bt_delRebuild_tail {h : List Byte} {eb el en o sz p : Nat}
    (hbe : 88 ≤ eb) (ho : eb + 12 ≤ o) (hoe : o + sz ≤ h.length)
    (hp1 : h.length - sz ≤ p) :
    bt (delRebuild h eb el en o sz) p = 0 := by
  have l3 := delS3_length (h := h) (rd32 h 84 - sz) (el - sz) (en - 1) hbe ho hoe
  unfold delRebuild
  rw [bt_append_right _ (by rw [l3]; omega)]
  exact bt_replicate_zero _ _

/-! ## Transfer helpers -/

/-- Read a 32-bit field whose four bytes are those of `pack32 v`. -/
theorem rd32_eq_of_pack {d : List Byte} {o v : Nat} (hv : v < 4294967296)
    (hb : ∀ j, j < 4 → bt d (o + j) = bt (pack32 v) j) : rd32 d o = v := by
  have hc : rd32 d o = rd32 (pack32 v) 0 := by
    apply rd32_congr
    intro j hj
    have := hb j hj
    simpa using this
  rw [hc, rd32_pack32 v hv]

/-- The EXTH tag survives into a buffer whose four tag bytes agree. -/
theorem exthTag_transfer {d d' : List Byte} {eb : Nat}
    (ht : pyslice d eb (eb + 4) = exthTag) (hlen' : eb + 4 ≤ d'.length)
    (hb : ∀ j, j < 4 → bt d' (eb + j) = bt d (eb + j)) :
    pyslice d' eb (eb + 4) = exthTag := by
  rw [pyslice_four (tag_imp_len ht)] at ht
  rw [pyslice_four hlen', ← ht]
  have h0 := hb 0 (by omega)
  have h1 := hb 1 (by omega)
  have h2 := hb 2 (by omega)
  have h3 := hb 3 (by omega)
  simp only [Nat.add_zero] at h0
  simp [Fin.ext_iff, h0, h1, h2, h3]

/-- Equal slices from pointwise equal regions (no shift). -/
theorem pyslice_eq_of_bt {d d' : List Byte} {a b : Nat}
    (hreg : ∀ p, a ≤ p → p < b → bt d' p = bt d p) (hab : a ≤ b)
    (hb : b ≤ d.length) (hb' : b ≤ d'.length) :
    pyslice d' a b = pyslice d a b := by
  have hreg' : ∀ p, a ≤ p → p < b → bt d' (a + (p - a)) = bt d p := by
    intro p hp1 hp2
    have hy : a + (p - a) = p := by omega
    rw [hy]
    exact hreg p hp1 hp2
  have hbb : a + (b - a) ≤ d'.length := by omega
  have hx := pyslice_affine hab hb hbb hreg'
  have hy : a + (b - a) = b := by omega
  rwa [hy] at hx

/-- Equal slices from a region copied `sz` bytes lower. -/
theorem pyslice_down_of_bt {d d' : List Byte} {a b sz : Nat}
    (hreg : ∀ p, a ≤ p → p < b → bt d' (p - sz) = bt d p) (hab : a ≤ b)
    (hb : b ≤ d.length) (hsz : sz ≤ a) (hb' : b - sz ≤ d'.length) :
    pyslice d' (a - sz) (b - sz) = pyslice d a b := by
  have hreg' : ∀ p, a ≤ p → p < b → bt d' (a - sz + (p - a)) = bt d p := by
    intro p hp1 hp2
    have hy : a - sz + (p - a) = p - sz := by omega
    rw [hy]
    exact hreg p hp1 hp2
  have hbb : a - sz + (b - a) ≤ d'.length := by omega
  have hx := pyslice_affine hab hb hbb hreg'
  have hy : a - sz + (b - a) = b - sz := by omega
  rwa [hy] at hx



/-! ## Full specification of a successful deletion -/

/-- With a well-formed walk `L = pre ++ (o, t, sz) :: post` whose `pre` part
contains no record of type `t`, and non-underflowing field updates,
`del_exth h t` succeeds, returns `delRebuild h eb el en o sz` (section length
preserved), and the result is again well-formed, with exactly the matched
record removed, the three size fields decreased by `sz` (count by one), all
other records' payloads intact, and `sz` zero bytes appended at the tail. -/
theorem del_exth_wf_match {h : List Byte} {eb el en : Nat}
    {L : List (Nat × Nat × Nat)} {e : Nat} (W : ExthOk h eb el en L e) {t : Nat}
    {pre post : List (Nat × Nat × Nat)} {o sz : Nat}
    (hL : L = pre ++ (o, t, sz) :: post) (hpre : ∀ r ∈ pre, r.2.1 ≠ t)
    (hszt : sz ≤ rd32 h 84) (hszel : sz ≤ el)
    (hel32 : el < 4294967296) (hen32 : en < 4294967296) :
    del_exth h t = .ok (delRebuild h eb el en o sz) ∧
    (delRebuild h eb el en o sz).length = h.length ∧
    rd32 (delRebuild h eb el en o sz) 84 = rd32 h 84 - sz ∧
    ExthOk (delRebuild h eb el en o sz) eb (el - sz) (en - 1)
      (pre ++ post.map (fun r => (r.1 - sz, r.2.1, r.2.2))) (e - sz) ∧
    (∀ u, readFromWalk (delRebuild h eb el en o sz)
        (pre ++ post.map (fun r => (r.1 - sz, r.2.1, r.2.2))) u =
      readFromWalk h pre u ++ readFromWalk h post u) := by
  obtain ⟨m, wpre, wrest⟩ := exthWalk_split (hL ▸ W.walk)
  have hlenc : ((o, t, sz) :: post).length = post.length + 1 := by simp
  rw [hlenc] at wrest
  obtain ⟨rest, hm8, wpost, hcons⟩ := exthWalk_succ_inv wrest
  have hhead : (o, t, sz) = (m, rd32 h m, rd32 h (m + 4)) := by
    have := congrArg (fun l => List.head? l) hcons
    simpa using this
  have ho' : o = m := congrArg (fun q => q.1) hhead
  have hsz2 : sz = rd32 h (m + 4) := congrArg (fun q => q.2.2) hhead
  have hpost2 : post = rest := by
    have := congrArg (fun l => List.tail l) hcons
    simpa using this
  rw [← ho'] at wpre wpost hsz2
  rw [← hsz2, ← hpost2] at wpost
  have hbe : 88 ≤ eb := W.title
  have hoeb : eb + 12 ≤ o := exthWalk_le wpre
  have hose : o + sz ≤ e := exthWalk_le wpost
  have hfits : e ≤ h.length := W.fits
  have hoe : o + sz ≤ h.length := le_trans hose hfits
  have Dlen : (delRebuild h eb el en o sz).length = h.length :=
    delRebuild_length hbe hoeb hoe
  have hdel : del_exth h t = .ok (delRebuild h eb el en o sz) := by
    rw [del_exth_wf_found W hL hpre hszt hszel hel32 hen32, if_pos (by rw [Dlen])]
  have hD84 : rd32 (delRebuild h eb el en o sz) 84 = rd32 h 84 - sz := by
    apply rd32_eq_of_pack (by have := rd32_lt h 84; omega)
    intro j hj
    rw [bt_delRebuild_title hbe hoeb hoe (by omega) (by omega)]
    congr 1
    omega
  have hD20 : rd32 (delRebuild h eb el en o sz) 20 = rd32 h 20 := by
    apply rd32_congr
    intro j hj
    exact bt_delRebuild_lo hbe hoeb hoe (by omega)
  have hDtag : pyslice (delRebuild h eb el en o sz) eb (eb + 4) = exthTag := by
    apply exthTag_transfer W.tag (by rw [Dlen]; have := W.eb12; omega)
    intro j hj
    exact bt_delRebuild_pre hbe hoeb hoe (by omega) (by omega)
  have hDel : rd32 (delRebuild h eb el en o sz) (eb + 4) = el - sz := by
    apply rd32_eq_of_pack (by omega)
    intro j hj
    rw [bt_delRebuild_el hbe hoeb hoe (by omega) (by omega)]
    congr 1
    omega
  have hDen : rd32 (delRebuild h eb el en o sz) (eb + 8) = en - 1 := by
    apply rd32_eq_of_pack (by omega)
    intro j hj
    rw [bt_delRebuild_en hbe hoeb hoe (by omega) (by omega)]
    congr 1
    omega
  have hDparams : get_exth_params (delRebuild h eb el en o sz) =
      .ok (eb, el - sz, en - 1, (delRebuild h eb el en o sz).length) := by
    rw [get_exth_params_ok_iff]
    have he12 := W.eb12
    exact ⟨by rw [Dlen]; omega, by rw [hD20]; exact W.ebval, by rw [Dlen]; omega, hDtag,
      hDel.symm, hDen.symm, rfl⟩
  have hsizes_pre : ∀ r ∈ pre, 8 ≤ r.2.2 := fun r hr =>
    W.sizes r (by rw [hL]; exact List.mem_append_left _ hr)
  have hsizes_post : ∀ r ∈ post, 8 ≤ r.2.2 := fun r hr =>
    W.sizes r (by rw [hL]; exact List.mem_append_right _ (List.mem_cons_of_mem _ hr))
  have hregpre : ∀ p, eb + 12 ≤ p → p < o →
      bt (delRebuild h eb el en o sz) (eb + 12 + (p - (eb + 12))) = bt h p := by
    intro p hp1 hp2
    have hy : eb + 12 + (p - (eb + 12)) = p := by omega
    rw [hy]
    exact bt_delRebuild_mid hbe hoeb hoe hp1 hp2
  have hwpreD := exthWalk_affine wpre hsizes_pre hregpre (by rw [Dlen]; omega)
  have hmap1 : pre.map (fun r => (eb + 12 + (r.1 - (eb + 12)), r.2.1, r.2.2)) = pre := by
    have hcg : ∀ r ∈ pre, (eb + 12 + (r.1 - (eb + 12)), r.2.1, r.2.2) = r := by
      intro r hr
      have hm2 := exthWalk_mem wpre r hr
      have hy : eb + 12 + (r.1 - (eb + 12)) = r.1 := by omega
      rw [hy]
    rw [List.map_congr_left hcg, List.map_id']
  have hend1 : eb + 12 + (o - (eb + 12)) = o := by omega
  rw [hmap1, hend1] at hwpreD
  have hregpost : ∀ p, o + sz ≤ p → p < e →
      bt (delRebuild h eb el en o sz) (o + (p - (o + sz))) = bt h p := by
    intro p hp1 hp2
    have hy : o + (p - (o + sz)) = p - sz := by omega
    rw [hy]
    rw [bt_delRebuild_shift hbe hoeb hoe (by omega) (by omega)]
    congr 1
    omega
  have hwpostD := exthWalk_affine wpost hsizes_post hregpost (by rw [Dlen]; omega)
  have hmap2 : post.map (fun r => (o + (r.1 - (o + sz)), r.2.1, r.2.2)) =
      post.map (fun r => (r.1 - sz, r.2.1, r.2.2)) := by
    apply List.map_congr_left
    intro r hr
    have hm2 := exthWalk_mem wpost r hr
    have hy : o + (r.1 - (o + sz)) = r.1 - sz := by omega
    rw [hy]
  have hend2 : o + (e - (o + sz)) = e - sz := by omega
  rw [hmap2, hend2] at hwpostD
  have hwD := exthWalk_append hwpreD hwpostD
  have hcount : en - 1 = pre.length + post.length := by
    have hc := W.count
    rw [hL] at hc
    simp at hc
    omega
  have WD : ExthOk (delRebuild h eb el en o sz) eb (el - sz) (en - 1)
      (pre ++ post.map (fun r => (r.1 - sz, r.2.1, r.2.2))) (e - sz) := by
    refine ⟨hDparams, hbe, ?_, ?_, by rw [Dlen]; omega⟩
    · rw [hcount]
      exact hwD
    · intro r hr
      rcases List.mem_append.mp hr with hr1 | hr2
      · exact hsizes_pre r hr1
      · obtain ⟨q, hq, rfl⟩ := List.mem_map.mp hr2
        exact hsizes_post q hq
  refine ⟨hdel, Dlen, hD84, WD, ?_⟩
  intro u
  unfold readFromWalk
  rw [List.filterMap_append]
  congr 1
  · apply List.filterMap_congr
    intro r hr
    have hm2 := exthWalk_mem wpre r hr
    have hsr := hsizes_pre r hr
    have hslice : pyslice (delRebuild h eb el en o sz) (r.1 + 8) (r.1 + r.2.2) =
        pyslice h (r.1 + 8) (r.1 + r.2.2) := by
      have hregx : ∀ p, r.1 + 8 ≤ p → p < r.1 + r.2.2 →
          bt (delRebuild h eb el en o sz) p = bt h p := by
        intro p hp1 hp2
        exact bt_delRebuild_mid hbe hoeb hoe (by omega) (by omega)
      exact pyslice_eq_of_bt hregx (by omega) (by omega) (by rw [Dlen]; omega)
    rw [hslice]
  · rw [List.filterMap_map]
    apply List.filterMap_congr
    intro r hr
    have hm2 := exthWalk_mem wpost r hr
    have hsr := hsizes_post r hr
    have hslice : pyslice (delRebuild h eb el en o sz) (r.1 - sz + 8) (r.1 - sz + r.2.2) =
        pyslice h (r.1 + 8) (r.1 + r.2.2) := by
      have hregx : ∀ p, r.1 + 8 ≤ p → p < r.1 + r.2.2 →
          bt (delRebuild h eb el en o sz) (p - sz) = bt h p := by
        intro p hp1 hp2
        rw [bt_delRebuild_shift hbe hoeb hoe (by omega) (by omega)]
        congr 1
        omega
      have hx := pyslice_down_of_bt hregx (by omega) (by omega) (by omega)
        (by rw [Dlen]; omega)
      have hy1 : r.1 + 8 - sz = r.1 - sz + 8 := by omega
      have hy2 : r.1 + r.2.2 - sz = r.1 - sz + r.2.2 := by omega
      rwa [hy1, hy2] at hx
    show (if r.2.1 = u then some (pyslice (delRebuild h eb el en o sz)
        (r.1 - sz + 8) (r.1 - sz + r.2.2)) else none) =
      (if r.2.1 = u then some (pyslice h (r.1 + 8) (r.1 + r.2.2)) else none)
    rw [hslice]

/-! ## The buffer built by a successful `add_exth`

`add_exth` first splices the new record (together with the rewritten length
and count fields) in right after the 12-byte EXTH prologue, then rewrites the
Title Offset field, then trims the buffer back to the original section
length. -/

/-- The field/record block `add_exth` splices in at `ebase + 4`. -/
def addMid (el en t : Nat) (p : List Byte) : List Byte :=
  pack32 (el + (8 + p.length)) ++ pack32 (en + 1) ++ pack32 t ++
    pack32 (8 + p.length) ++ p

/-- The enlarged intermediate buffer (`newrec0` after the title write). -/
def addFull (h : List Byte) (eb el en t : Nat) (p : List Byte) : List Byte :=
  splice (splice h (eb + 4) (eb + 12) (addMid el en t p)) 84 88
    (pack32 (rd32 h 84 + (8 + p.length)))

/-- The buffer a successful `add_exth` returns. -/
def addResult (h : List Byte) (eb el en t : Nat) (p : List Byte) : List Byte :=
  (addFull h eb el en t p).take h.length

theorem addMid_length (el en t : Nat) (p : List Byte) :
    (addMid el en t p).length = 16 + p.length := by
  simp [addMid, length_pack32]
  omega

theorem addA0_length {h : List Byte} {eb : Nat} (el en t : Nat) (p : List Byte)
    (hbe : 88 ≤ eb) (he12 : eb + 12 ≤ h.length) :
    (splice h (eb + 4) (eb + 12) (addMid el en t p)).length =
      h.length + (8 + p.length) := by
  rw [length_splice _ (by omega), addMid_length]
  omega

theorem addFull_length {h : List Byte} {eb el en t : Nat} {p : List Byte}
    (hbe : 88 ≤ eb) (he12 : eb + 12 ≤ h.length) :
    (addFull h eb el en t p).length = h.length + (8 + p.length) := by
  unfold addFull
  rw [length_splice _ (by rw [addA0_length el en t p hbe he12]; omega),
    addA0_length el en t p hbe he12, length_pack32]
  omega

theorem addResult_length {h : List Byte} {eb el en t : Nat} {p : List Byte}
    (hbe : 88 ≤ eb) (he12 : eb + 12 ≤ h.length) :
    (addResult h eb el en t p).length = h.length := by
  unfold addResult
  rw [List.length_take, addFull_length hbe he12]
  omega

theorem bt_addFull_lo {h : List Byte} {eb el en t q : Nat} {p : List Byte}
    (hbe : 88 ≤ eb) (he12 : eb + 12 ≤ h.length) (hq : q < 84) :
    bt (addFull h eb el en t p) q = bt h q := by
  have l0 := addA0_length el en t p hbe he12
  unfold addFull
  rw [bt_splice_lt (by omega) (by omega), bt_splice_lt (by omega) (by omega)]

theorem bt_addFull_title {h : List Byte} {eb el en t q : Nat} {p : List Byte}
    (hbe : 88 ≤ eb) (he12 : eb + 12 ≤ h.length) (hq1 : 84 ≤ q) (hq2 : q < 88) :
    bt (addFull h eb el en t p) q =
      bt (pack32 (rd32 h 84 + (8 + p.length))) (q - 84) := by
  have l0 := addA0_length el en t p hbe he12
  unfold addFull
  rw [bt_splice_mid hq1 (by rw [length_pack32]; omega) (by omega)]

theorem bt_addFull_pre {h : List Byte} {eb el en t q : Nat} {p : List Byte}
    (hbe : 88 ≤ eb) (he12 : eb + 12 ≤ h.length) (hq1 : 88 ≤ q) (hq2 : q < eb + 4) :
    bt (addFull h eb el en t p) q = bt h q := by
  have l0 := addA0_length el en t p hbe he12
  unfold addFull
  rw [bt_splice_hi (by rw [length_pack32]; omega) (by omega)]
  have hix : 88 + (q - (84 + (pack32 (rd32 h 84 + (8 + p.length))).length)) = q := by
    rw [length_pack32]
    omega
  rw [hix, bt_splice_lt (by omega) (by omega)]

theorem bt_addFull_mid {h : List Byte} {eb el en t q : Nat} {p : List Byte}
    (hbe : 88 ≤ eb) (he12 : eb + 12 ≤ h.length) (hq1 : eb + 4 ≤ q)
    (hq2 : q < eb + 20 + p.length) :
    bt (addFull h eb el en t p) q = bt (addMid el en t p) (q - (eb + 4)) := by
  have l0 := addA0_length el en t p hbe he12
  unfold addFull
  rw [bt_splice_hi (by rw [length_pack32]; omega) (by omega)]
  have hix : 88 + (q - (84 + (pack32 (rd32 h 84 + (8 + p.length))).length)) = q := by
    rw [length_pack32]
    omega
  rw [hix, bt_splice_mid (by omega) (by rw [addMid_length]; omega) (by omega)]

theorem bt_addFull_hi {h : List Byte} {eb el en t q : Nat} {p : List Byte}
    (hbe : 88 ≤ eb) (he12 : eb + 12 ≤ h.length) (hq1 : eb + 20 + p.length ≤ q) :
    bt (addFull h eb el en t p) q = bt h (q - (8 + p.length)) := by
  have l0 := addA0_length el en t p hbe he12
  unfold addFull
  rw [bt_splice_hi (by rw [length_pack32]; omega) (by omega)]
  have hix : 88 + (q - (84 + (pack32 (rd32 h 84 + (8 + p.length))).length)) = q := by
    rw [length_pack32]
    omega
  rw [hix, bt_splice_hi (by rw [addMid_length]; omega) (by omega)]
  congr 1
  rw [addMid_length]
  omega

theorem bt_addMid_el {el en t : Nat} {p : List Byte} {j : Nat} (hj : j < 4) :
    bt (addMid el en t p) j = bt (pack32 (el + (8 + p.length))) j := by
  unfold addMid
  rw [List.append_assoc, List.append_assoc, List.append_assoc,
    bt_append_left _ (by rw [length_pack32]; omega)]

theorem bt_addMid_en {el en t : Nat} {p : List Byte} {j : Nat} (hj1 : 4 ≤ j)
    (hj2 : j < 8) :
    bt (addMid el en t p) j = bt (pack32 (en + 1)) (j - 4) := by
  unfold addMid
  rw [List.append_assoc, List.append_assoc, List.append_assoc,
    bt_append_right _ (by rw [length_pack32]; omega),
    bt_append_left _ (by simp [length_pack32]; omega)]
  have hix : j - (pack32 (el + (8 + p.length))).length = j - 4 := by
    rw [length_pack32]
  rw [hix]

theorem bt_addMid_type {el en t : Nat} {p : List Byte} {j : Nat} (hj1 : 8 ≤ j)
    (hj2 : j < 12) :
    bt (addMid el en t p) j = bt (pack32 t) (j - 8) := by
  unfold addMid
  rw [List.append_assoc, List.append_assoc, List.append_assoc,
    bt_append_right _ (by rw [length_pack32]; omega),
    bt_append_right _ (by simp [length_pack32]; omega),
    bt_append_left _ (by simp [length_pack32]; omega)]
  have hix : j - (pack32 (el + (8 + p.length))).length - (pack32 (en + 1)).length = j - 8 := by
    simp [length_pack32]
    omega
  rw [hix]

theorem bt_addMid_size {el en t : Nat} {p : List Byte} {j : Nat} (hj1 : 12 ≤ j)
    (hj2 : j < 16) :
    bt (addMid el en t p) j = bt (pack32 (8 + p.length)) (j - 12) := by
  unfold addMid
  rw [List.append_assoc, List.append_assoc, List.append_assoc,
    bt_append_right _ (by rw [length_pack32]; omega),
    bt_append_right _ (by simp [length_pack32]; omega),
    bt_append_right _ (by simp [length_pack32]; omega),
    bt_append_left _ (by simp [length_pack32]; omega)]
  have hix : j - (pack32 (el + (8 + p.length))).length - (pack32 (en + 1)).length -
      (pack32 t).length = j - 12 := by
    simp [length_pack32]
    omega
  rw [hix]

theorem bt_addMid_payload {el en t : Nat} {p : List Byte} {j : Nat} (hj1 : 16 ≤ j) :
    bt (addMid el en t p) j = bt p (j - 16) := by
  unfold addMid
  rw [List.append_assoc, List.append_assoc, List.append_assoc,
    bt_append_right _ (by rw [length_pack32]; omega),
    bt_append_right _ (by simp [length_pack32]; omega),
    bt_append_right _ (by simp [length_pack32]; omega),
    bt_append_right _ (by simp [length_pack32]; omega)]
  have hix : j - (pack32 (el + (8 + p.length))).length - (pack32 (en + 1)).length -
      (pack32 t).length - (pack32 (8 + p.length)).length = j - 16 := by
    simp [length_pack32]
    omega
  rw [hix]

/-- Equal slices from a region copied `k` bytes higher. -/
theorem pyslice_up_of_bt {d d' : List Byte} {a b k : Nat}
    (hreg : ∀ p, a ≤ p → p < b → bt d' (p + k) = bt d p) (hab : a ≤ b)
    (hb : b ≤ d.length) (hb' : b + k ≤ d'.length) :
    pyslice d' (a + k) (b + k) = pyslice d a b := by
  have hreg' : ∀ p, a ≤ p → p < b → bt d' (a + k + (p - a)) = bt d p := by
    intro p hp1 hp2
    have hy : a + k + (p - a) = p + k := by omega
    rw [hy]
    exact hreg p hp1 hp2
  have hbb : a + k + (b - a) ≤ d'.length := by omega
  have hx := pyslice_affine hab hb hbb hreg'
  have hy : a + k + (b - a) = b + k := by omega
  rwa [hy] at hx

/-- Unfolding `add_exth` over a well-formed parse, up to the tail check:
the four packed fields must be in 32-bit range. -/
theorem add_exth_eq {h : List Byte} {eb el en : Nat} {L : List (Nat × Nat × Nat)}
    {e t : Nat} {p : List Byte} (W : ExthOk h eb el en L e)
    (hb1 : el + (8 + p.length) < 4294967296) (hb2 : en + 1 < 4294967296)
    (hb3 : t < 4294967296) (hb4 : rd32 h 84 + (8 + p.length) < 4294967296) :
    add_exth h t p =
      if (addFull h eb el en t p).drop
          ((addFull h eb el en t p).length - (8 + p.length)) =
          List.replicate (8 + p.length) (0 : Byte)
      then .ok (addResult h eb el en t p)
      else .error "add_exth: trimmed non-null bytes at end of section" := by
  have hbe := W.title
  have he12 := W.eb12
  unfold add_exth
  rw [W.params, okBind]
  simp only []
  have hc1 : ((el : Int) + ((8 + p.length : Nat) : Int)) =
      ((el + (8 + p.length) : Nat) : Int) := by omega
  have hc2 : ((en : Int) + 1) = ((en + 1 : Nat) : Int) := by omega
  rw [hc1, hc2]
  rw [pack32E_okN hb1, okBind, pack32E_okN hb2, okBind, pack32E_okN hb3, okBind,
    pack32E_okN (by omega : 8 + p.length < 4294967296), okBind]
  have hA0 : h.take (eb + 4) ++ pack32 (el + (8 + p.length)) ++ pack32 (en + 1) ++
      pack32 t ++ pack32 (8 + p.length) ++ p ++ h.drop (eb + 12) =
      splice h (eb + 4) (eb + 12) (addMid el en t p) := by
    simp [splice, addMid, List.append_assoc]
  rw [hA0]
  have l0 := addA0_length el en t p hbe he12
  have hT : rd32 (splice h (eb + 4) (eb + 12) (addMid el en t p)) 84 = rd32 h 84 :=
    rd32_splice_lt (by omega) (by omega)
  rw [show getint32 (splice h (eb + 4) (eb + 12) (addMid el en t p)) title_offset =
      .ok (rd32 h 84) by
    unfold title_offset
    rw [getint32_ok (by omega), hT], okBind]
  have hwr := writeint_okI
    (d := splice h (eb + 4) (eb + 12) (addMid el en t p)) (o := title_offset)
    (n := ((rd32 h 84 : Int) + ((8 + p.length : Nat) : Int))) (by omega) (by omega)
  rw [hwr, okBind]
  have htn : (((rd32 h 84 : Int) + ((8 + p.length : Nat) : Int))).toNat =
      rd32 h 84 + (8 + p.length) := by omega
  rw [htn]
  rfl

/-- Under the slack hypothesis, the trimmed tail of the enlarged buffer is the
last `8 + p.length` bytes of the original section. -/
theorem addFull_tail {h : List Byte} {eb el en : Nat} {L : List (Nat × Nat × Nat)}
    {e t : Nat} {p : List Byte} (W : ExthOk h eb el en L e)
    (hsl : e + (8 + p.length) ≤ h.length) :
    (addFull h eb el en t p).drop ((addFull h eb el en t p).length - (8 + p.length)) =
      pyslice h (h.length - (8 + p.length)) h.length := by
  have hbe := W.title
  have he12 := W.eb12
  have he := W.estart
  have hfull : (addFull h eb el en t p).length = h.length + (8 + p.length) :=
    addFull_length hbe he12
  apply eq_of_bt
  · rw [List.length_drop, hfull, pyslice_length (by omega) (by omega)]
    omega
  · intro q hq
    rw [List.length_drop, hfull] at hq
    rw [bt_drop, bt_pyslice (by omega)]
    have hx : h.length + (8 + p.length) - (8 + p.length) + q = h.length + q := by omega
    rw [hfull, hx, bt_addFull_hi hbe he12 (by omega)]
    congr 1
    omega

/-- Full specification of a successful insertion over a well-formed section:
`add_exth h t p` succeeds exactly when the `8 + p.length` trailing bytes of
the section are zero; it returns `addResult`, which keeps the section length,
carries the new record *first* (right after the EXTH prologue, before all
existing records), bumps the declared length, count and Title Offset, and
leaves every pre-existing record's payload intact. -/
theorem add_exth_wf_ok {h : List Byte} {eb el en : Nat} {L : List (Nat × Nat × Nat)}
    {e t : Nat} {p : List Byte} (W : ExthOk h eb el en L e)
    (hsl : e + (8 + p.length) ≤ h.length)
    (hb1 : el + (8 + p.length) < 4294967296) (hb2 : en + 1 < 4294967296)
    (hb3 : t < 4294967296) (hb4 : rd32 h 84 + (8 + p.length) < 4294967296)
    (htz : pyslice h (h.length - (8 + p.length)) h.length =
      List.replicate (8 + p.length) (0 : Byte)) :
    add_exth h t p = .ok (addResult h eb el en t p) ∧
    (addResult h eb el en t p).length = h.length ∧
    rd32 (addResult h eb el en t p) 84 = rd32 h 84 + (8 + p.length) ∧
    ExthOk (addResult h eb el en t p) eb (el + (8 + p.length)) (en + 1)
      ((eb + 12, t, 8 + p.length) ::
        L.map (fun r => (r.1 + (8 + p.length), r.2.1, r.2.2))) (e + (8 + p.length)) ∧
    (∀ u, readFromWalk (addResult h eb el en t p)
        ((eb + 12, t, 8 + p.length) ::
          L.map (fun r => (r.1 + (8 + p.length), r.2.1, r.2.2))) u =
      (if t = u then [p] else []) ++ readFromWalk h L u) := by
  have hbe := W.title
  have he12 := W.eb12
  have hes := W.estart
  have hfits := W.fits
  have aRlen : (addResult h eb el en t p).length = h.length :=
    addResult_length hbe he12
  have hfull : (addFull h eb el en t p).length = h.length + (8 + p.length) :=
    addFull_length hbe he12
  have hadd : add_exth h t p = .ok (addResult h eb el en t p) := by
    rw [add_exth_eq W hb1 hb2 hb3 hb4, addFull_tail W hsl, if_pos htz]
  have hbtake : ∀ q, q < h.length →
      bt (addResult h eb el en t p) q = bt (addFull h eb el en t p) q := by
    intro q hq
    unfold addResult
    exact bt_take hq
  have h84 : rd32 (addResult h eb el en t p) 84 = rd32 h 84 + (8 + p.length) := by
    apply rd32_eq_of_pack hb4
    intro j hj
    rw [hbtake _ (by omega), bt_addFull_title hbe he12 (by omega) (by omega)]
    congr 1
    omega
  have h20 : rd32 (addResult h eb el en t p) 20 = rd32 h 20 := by
    apply rd32_congr
    intro j hj
    rw [hbtake _ (by omega), bt_addFull_lo hbe he12 (by omega)]
  have htag : pyslice (addResult h eb el en t p) eb (eb + 4) = exthTag := by
    apply exthTag_transfer W.tag (by rw [aRlen]; omega)
    intro j hj
    rw [hbtake _ (by omega), bt_addFull_pre hbe he12 (by omega) (by omega)]
  have hel : rd32 (addResult h eb el en t p) (eb + 4) = el + (8 + p.length) := by
    apply rd32_eq_of_pack hb1
    intro j hj
    rw [hbtake _ (by omega), bt_addFull_mid hbe he12 (by omega) (by omega)]
    have hix : eb + 4 + j - (eb + 4) = j := by omega
    rw [hix, bt_addMid_el hj]
  have hen : rd32 (addResult h eb el en t p) (eb + 8) = en + 1 := by
    apply rd32_eq_of_pack hb2
    intro j hj
    rw [hbtake _ (by omega), bt_addFull_mid hbe he12 (by omega) (by omega)]
    have hix : eb + 8 + j - (eb + 4) = 4 + j := by omega
    rw [hix, bt_addMid_en (by omega) (by omega)]
    congr 1
    omega
  have hty : rd32 (addResult h eb el en t p) (eb + 12) = t := by
    apply rd32_eq_of_pack hb3
    intro j hj
    rw [hbtake _ (by omega), bt_addFull_mid hbe he12 (by omega) (by omega)]
    have hix : eb + 12 + j - (eb + 4) = 8 + j := by omega
    rw [hix, bt_addMid_type (by omega) (by omega)]
    congr 1
    omega
  have hsz : rd32 (addResult h eb el en t p) (eb + 12 + 4) = 8 + p.length := by
    apply rd32_eq_of_pack (by omega)
    intro j hj
    rw [hbtake _ (by omega), bt_addFull_mid hbe he12 (by omega) (by omega)]
    have hix : eb + 12 + 4 + j - (eb + 4) = 12 + j := by omega
    rw [hix, bt_addMid_size (by omega) (by omega)]
    congr 1
    omega
  have hparams : get_exth_params (addResult h eb el en t p) =
      .ok (eb, el + (8 + p.length), en + 1, (addResult h eb el en t p).length) := by
    rw [get_exth_params_ok_iff]
    exact ⟨by rw [aRlen]; omega, by rw [h20]; exact W.ebval, by rw [aRlen]; omega,
      htag, hel.symm, hen.symm, rfl⟩
  have hreg : ∀ q, eb + 12 ≤ q → q < e →
      bt (addResult h eb el en t p) (eb + 12 + (8 + p.length) + (q - (eb + 12))) =
        bt h q := by
    intro q hq1 hq2
    have hix : eb + 12 + (8 + p.length) + (q - (eb + 12)) = q + (8 + p.length) := by
      omega
    rw [hix, hbtake _ (by omega), bt_addFull_hi hbe he12 (by omega)]
    congr 1
    omega
  have hwaff := exthWalk_affine W.walk W.sizes hreg (by rw [aRlen]; omega)
  have hmap : L.map (fun r => (eb + 12 + (8 + p.length) + (r.1 - (eb + 12)),
      r.2.1, r.2.2)) = L.map (fun r => (r.1 + (8 + p.length), r.2.1, r.2.2)) := by
    apply List.map_congr_left
    intro r hr
    have hm := exthWalk_mem W.walk r hr
    have hy : eb + 12 + (8 + p.length) + (r.1 - (eb + 12)) = r.1 + (8 + p.length) := by
      omega
    rw [hy]
  have hend : eb + 12 + (8 + p.length) + (e - (eb + 12)) = e + (8 + p.length) := by
    omega
  rw [hmap, hend] at hwaff
  have hstep : eb + 12 + rd32 (addResult h eb el en t p) (eb + 12 + 4) =
      eb + 12 + (8 + p.length) := by rw [hsz]
  rw [← hstep] at hwaff
  have hwalk0 := exthWalk_succ_intro
    (show eb + 12 + 8 ≤ (addResult h eb el en t p).length by rw [aRlen]; omega) hwaff
  rw [hty, hsz] at hwalk0
  have hpay : pyslice (addResult h eb el en t p) (eb + 12 + 8)
      (eb + 12 + (8 + p.length)) = p := by
    apply eq_of_bt
    · rw [pyslice_length (by omega) (by rw [aRlen]; omega)]
      omega
    · intro j hj
      rw [pyslice_length (by omega) (by rw [aRlen]; omega)] at hj
      rw [bt_pyslice (by omega), hbtake _ (by omega),
        bt_addFull_mid hbe he12 (by omega) (by omega)]
      have hix : eb + 12 + 8 + j - (eb + 4) = 16 + j := by omega
      rw [hix, bt_addMid_payload (by omega)]
      congr 1
      omega
  refine ⟨hadd, aRlen, h84, ⟨hparams, hbe, hwalk0, ?_, by rw [aRlen]; omega⟩, ?_⟩
  · intro r hr
    rcases List.mem_cons.mp hr with rfl | hr2
    · show 8 ≤ 8 + p.length
      omega
    · obtain ⟨q, hq, rfl⟩ := List.mem_map.mp hr2
      exact W.sizes q hq
  · intro u
    unfold readFromWalk
    have htr : ∀ r ∈ L,
        ((fun r => if r.2.1 = u then
            some (pyslice (addResult h eb el en t p) (r.1 + 8) (r.1 + r.2.2))
          else none) ∘ (fun r => (r.1 + (8 + p.length), r.2.1, r.2.2))) r =
        (fun r => if r.2.1 = u then some (pyslice h (r.1 + 8) (r.1 + r.2.2))
          else none) r := by
      intro r hr
      have hm := exthWalk_mem W.walk r hr
      have hs := W.sizes r hr
      have hreg2 : ∀ q, r.1 + 8 ≤ q → q < r.1 + r.2.2 →
          bt (addResult h eb el en t p) (q + (8 + p.length)) = bt h q := by
        intro q hq1 hq2
        rw [hbtake _ (by omega), bt_addFull_hi hbe he12 (by omega)]
        congr 1
        omega
      have hsl2 := pyslice_up_of_bt hreg2 (by omega) (by omega) (by rw [aRlen]; omega)
      have hy1 : r.1 + 8 + (8 + p.length) = r.1 + (8 + p.length) + 8 := by omega
      have hy2 : r.1 + r.2.2 + (8 + p.length) = r.1 + (8 + p.length) + r.2.2 := by
        omega
      rw [hy1, hy2] at hsl2
      show (if r.2.1 = u then
          some (pyslice (addResult h eb el en t p) (r.1 + (8 + p.length) + 8)
            (r.1 + (8 + p.length) + r.2.2)) else none) = _
      rw [hsl2]
    by_cases hu : t = u
    · rw [List.filterMap_cons_some (by simp [hu] : _ = some (pyslice
        (addResult h eb el en t p) (eb + 12 + 8) (eb + 12 + (8 + p.length))))]
      rw [if_pos hu, hpay, List.filterMap_map, List.filterMap_congr htr]
      rfl
    · rw [List.filterMap_cons_none (by simp [hu])]
      rw [if_neg hu, List.filterMap_map, List.filterMap_congr htr]
      rfl

/-- Inverting a successful `add_exth` over a well-formed section: the bumped
fields were in 32-bit range, and (when the record area leaves enough slack)
the trailing bytes of the original section were zero and the result is
`addResult`. -/
theorem add_exth_wf_inv {h : List Byte} {eb el en : Nat} {L : List (Nat × Nat × Nat)}
    {e t : Nat} {p out : List Byte} (W : ExthOk h eb el en L e)
    (HS : add_exth h t p = .ok out) :
    el + (8 + p.length) < 4294967296 ∧ en + 1 < 4294967296 ∧ t < 4294967296 ∧
    rd32 h 84 + (8 + p.length) < 4294967296 ∧
    (e + (8 + p.length) ≤ h.length →
      pyslice h (h.length - (8 + p.length)) h.length =
        List.replicate (8 + p.length) (0 : Byte) ∧
      out = addResult h eb el en t p) := by
  have hbe := W.title
  have he12 := W.eb12
  have HS0 := HS
  unfold add_exth at HS
  rw [W.params, okBind] at HS
  simp only [] at HS
  rw [bind_ok_iff] at HS
  obtain ⟨p1, hp1, HS⟩ := HS
  rw [bind_ok_iff] at HS
  obtain ⟨p2, hp2, HS⟩ := HS
  rw [bind_ok_iff] at HS
  obtain ⟨p3, hp3, HS⟩ := HS
  rw [bind_ok_iff] at HS
  obtain ⟨p4, hp4, HS⟩ := HS
  rw [bind_ok_iff] at HS
  obtain ⟨tval, htval, HS⟩ := HS
  rw [bind_ok_iff] at HS
  obtain ⟨w, hw, HS⟩ := HS
  have hi1 := pack32E_ok_inv hp1
  have hi2 := pack32E_ok_inv hp2
  have hi3 := pack32E_ok_inv hp3
  have hi4 := pack32E_ok_inv hp4
  have hb1 : el + (8 + p.length) < 4294967296 := by
    have := hi1.2.1
    omega
  have hb2 : en + 1 < 4294967296 := by
    have := hi2.2.1
    omega
  have hb3 : t < 4294967296 := by
    have := hi3.2.1
    omega
  have hq1 : p1 = pack32 (el + (8 + p.length)) := by
    rw [hi1.2.2]
    congr 1
  have hq2 : p2 = pack32 (en + 1) := by
    rw [hi2.2.2]
    congr 1
  have hq3 : p3 = pack32 t := by
    rw [hi3.2.2]
    congr 1
  have hq4 : p4 = pack32 (8 + p.length) := by
    rw [hi4.2.2]
    congr 1
  subst hq1
  subst hq2
  subst hq3
  subst hq4
  have hA0 : h.take (eb + 4) ++ pack32 (el + (8 + p.length)) ++ pack32 (en + 1) ++
      pack32 t ++ pack32 (8 + p.length) ++ p ++ h.drop (eb + 12) =
      splice h (eb + 4) (eb + 12) (addMid el en t p) := by
    simp [splice, addMid, List.append_assoc]
  rw [hA0] at htval hw
  have hT : rd32 (splice h (eb + 4) (eb + 12) (addMid el en t p)) title_offset =
      rd32 h 84 := by
    have hx := rd32_splice_lt (d := h) (a := eb + 4) (b := eb + 12)
      (m := addMid el en t p) (o := title_offset)
      (by unfold title_offset; omega) (by omega)
    simpa [title_offset] using hx
  rw [getint32_ok_iff] at htval
  obtain ⟨hlen84, rfl⟩ := htval
  unfold writeint at hw
  rw [bind_ok_iff] at hw
  obtain ⟨q, hq, hw⟩ := hw
  have hiq := pack32E_ok_inv hq
  have hb4 : rd32 h 84 + (8 + p.length) < 4294967296 := by
    have := hiq.2.1
    rw [hT] at hiq
    omega
  refine ⟨hb1, hb2, hb3, hb4, ?_⟩
  intro hsl
  rw [add_exth_eq W hb1 hb2 hb3 hb4, addFull_tail W hsl] at HS0
  by_cases hc : pyslice h (h.length - (8 + p.length)) h.length =
      List.replicate (8 + p.length) (0 : Byte)
  · rw [if_pos hc] at HS0
    refine ⟨hc, ?_⟩
    simp only [Except.ok.injEq] at HS0
    exact HS0.symm
  · rw [if_neg hc] at HS0
    exact absurd HS0 (by simp)

/-! ## The outer container

`secStart`/`secEnd` read the section directory the way `getsecaddr` does;
`wfContainer` is the well-formedness of a real PDB container: a positive
section count, the directory lying before the first section, monotone start
offsets, and all offsets inside the buffer. -/

/-- Start offset of section `i`, as read from the directory. -/
def secStart (d : List Byte) (i : Nat) : Nat := rd32 d (78 + i * 8)

/-- End offset of section `i`: the next section's start, or the buffer end
for the last section. -/
def secEnd (d : List Byte) (i : Nat) : Nat :=
  if i = rd16 d 76 - 1 then d.length else rd32 d (78 + (i + 1) * 8)

/-- Well-formed container. -/
def wfContainer (d : List Byte) : Prop :=
  78 ≤ d.length ∧ 0 < rd16 d 76 ∧
  78 + 8 * rd16 d 76 ≤ secStart d 0 ∧
  (∀ i, i < rd16 d 76 - 1 → secStart d i ≤ secStart d (i + 1)) ∧
  (∀ i, i < rd16 d 76 → secStart d i ≤ d.length)

theorem secStart_mono {d : List Byte} (W : wfContainer d) :
    ∀ i j, i ≤ j → j < rd16 d 76 → secStart d i ≤ secStart d j := by
  intro i j hij hj
  induction j with
  | zero =>
      have : i = 0 := by omega
      subst this
      exact le_refl _
  | succ k ih =>
      rcases Nat.lt_or_ge i (k + 1) with hik | hik
      · have h1 : secStart d i ≤ secStart d k := ih (by omega) (by omega)
        have h2 : secStart d k ≤ secStart d (k + 1) := W.2.2.2.1 k (by omega)
        omega
      · have : i = k + 1 := by omega
        subst this
        exact le_refl _

theorem getsecaddr_wf {d : List Byte} {i : Nat} (W : wfContainer d)
    (hi : i < rd16 d 76) :
    getsecaddr d i = .ok (secStart d i, secEnd d i) ∧
    secStart d i ≤ secEnd d i ∧ secEnd d i ≤ d.length := by
  obtain ⟨h78, hpos, hdir, hmono, hbnd⟩ := W
  have hdirlen : 78 + 8 * rd16 d 76 ≤ d.length := by
    have := hbnd 0 (by omega)
    omega
  have hrd : getint32 d (first_pdb_record + i * 8) = .ok (secStart d i) := by
    unfold first_pdb_record secStart
    exact getint32_ok (by omega)
  unfold getsecaddr
  rw [show getint16 d number_of_pdb_records = .ok (rd16 d 76) from
    getint16_ok (by unfold number_of_pdb_records; omega), okBind]
  rw [if_neg (by omega : ¬ i ≥ rd16 d 76), hrd, okBind]
  by_cases hlast : i = rd16 d 76 - 1
  · rw [if_pos hlast]
    refine ⟨by unfold secEnd; rw [if_pos hlast], ?_, ?_⟩
    · unfold secEnd
      rw [if_pos hlast]
      exact hbnd i hi
    · unfold secEnd
      rw [if_pos hlast]
  · rw [if_neg hlast]
    have hrd2 : getint32 d (first_pdb_record + (i + 1) * 8) =
        .ok (secStart d (i + 1)) := by
      unfold first_pdb_record secStart
      exact getint32_ok (by omega)
    rw [hrd2, okBind]
    refine ⟨by unfold secEnd; rw [if_neg hlast]; rfl, ?_, ?_⟩
    · unfold secEnd
      rw [if_neg hlast]
      exact hmono i (by omega)
    · unfold secEnd
      rw [if_neg hlast]
      exact hbnd (i + 1) (by omega)

theorem replacesection_eq {d : List Byte} {i s e2 : Nat} (sec : List Byte)
    (hga : getsecaddr d i = .ok (s, e2)) :
    replacesection d i sec =
      if s + sec.length = e2 then .ok (d.take s ++ sec ++ d.drop e2)
      else .error "section length change in replacesection" := by
  unfold replacesection
  rw [hga, okBind]

theorem readsection_eq {d : List Byte} {i s e2 : Nat}
    (hga : getsecaddr d i = .ok (s, e2)) :
    readsection d i = .ok (pyslice d s e2) := by
  unfold readsection
  rw [hga, okBind]

/-- Effect of a well-formed, length-preserving section replacement: the
result is a `splice`, keeps the total length, is still well-formed with the
same directory, and every other section is unchanged. -/
theorem replacesection_spec {d : List Byte} {i : Nat} {sec : List Byte}
    (W : wfContainer d) (hi : i < rd16 d 76)
    (hlen : secStart d i + sec.length = secEnd d i) :
    replacesection d i sec = .ok (splice d (secStart d i) (secEnd d i) sec) ∧
    (splice d (secStart d i) (secEnd d i) sec).length = d.length ∧
    wfContainer (splice d (secStart d i) (secEnd d i) sec) ∧
    (∀ j, j < rd16 d 76 →
      getsecaddr (splice d (secStart d i) (secEnd d i) sec) j = getsecaddr d j) ∧
    readsection (splice d (secStart d i) (secEnd d i) sec) i = .ok sec ∧
    (∀ j, j < rd16 d 76 → j ≠ i →
      readsection (splice d (secStart d i) (secEnd d i) sec) j = readsection d j) := by
  obtain ⟨hga, hse, hel⟩ := getsecaddr_wf W hi
  obtain ⟨h78, hpos, hdir, hmono, hbnd⟩ := W
  have hs0i : secStart d 0 ≤ secStart d i := secStart_mono ⟨h78, hpos, hdir, hmono, hbnd⟩ 0 i (by omega) hi
  have hsi : secStart d i ≤ d.length := hbnd i hi
  have hrepl : replacesection d i sec = .ok (splice d (secStart d i) (secEnd d i) sec) := by
    rw [replacesection_eq sec hga, if_pos hlen]
    rfl
  have hslen : (splice d (secStart d i) (secEnd d i) sec).length = d.length := by
    rw [length_splice _ hsi]
    omega
  -- the directory region is untouched
  have hdirpres : ∀ p, p < 78 + 8 * rd16 d 76 →
      bt (splice d (secStart d i) (secEnd d i) sec) p = bt d p := by
    intro p hp
    exact bt_splice_lt (by omega) hsi
  have h76 : rd16 (splice d (secStart d i) (secEnd d i) sec) 76 = rd16 d 76 := by
    apply rd16_congr
    intro j hj
    exact hdirpres _ (by omega)
  have hstart : ∀ j, j < rd16 d 76 →
      secStart (splice d (secStart d i) (secEnd d i) sec) j = secStart d j := by
    intro j hj
    apply rd32_congr
    intro k hk
    exact hdirpres _ (by omega)
  have secEnd_def : ∀ (X : List Byte) (j : Nat), secEnd X j =
      if j = rd16 X 76 - 1 then X.length else rd32 X (78 + (j + 1) * 8) :=
    fun X j => rfl
  have hend : ∀ j, j < rd16 d 76 →
      secEnd (splice d (secStart d i) (secEnd d i) sec) j = secEnd d j := by
    intro j hj
    rw [secEnd_def (splice d (secStart d i) (secEnd d i) sec) j, secEnd_def d j,
      h76, hslen]
    by_cases hlast : j = rd16 d 76 - 1
    · rw [if_pos hlast, if_pos hlast]
    · rw [if_neg hlast, if_neg hlast]
      apply rd32_congr
      intro k hk
      exact hdirpres _ (by omega)
  have hwf : wfContainer (splice d (secStart d i) (secEnd d i) sec) := by
    refine ⟨by rw [hslen]; omega, by rw [h76]; omega, ?_, ?_, ?_⟩
    · rw [h76, hstart 0 (by omega)]
      exact hdir
    · intro j hj
      rw [h76] at hj
      rw [hstart j (by omega), hstart (j + 1) (by omega)]
      exact hmono j hj
    · intro j hj
      rw [h76] at hj
      rw [hstart j hj, hslen]
      exact hbnd j hj
  have hga' : ∀ j, j < rd16 d 76 →
      getsecaddr (splice d (secStart d i) (secEnd d i) sec) j = getsecaddr d j := by
    intro j hj
    have hj' : j < rd16 (splice d (secStart d i) (secEnd d i) sec) 76 := by
      rw [h76]
      exact hj
    obtain ⟨hga2, _, _⟩ := getsecaddr_wf hwf hj'
    obtain ⟨hga3, _, _⟩ := getsecaddr_wf ⟨h78, hpos, hdir, hmono, hbnd⟩ hj
    rw [hga2, hga3, hstart j hj, hend j hj]
  refine ⟨hrepl, hslen, hwf, hga', ?_, ?_⟩
  · rw [readsection_eq ((hga' i hi).trans hga)]
    have hps : pyslice (splice d (secStart d i) (secEnd d i) sec)
        (secStart d i) (secEnd d i) = sec := by
      apply eq_of_bt
      · rw [pyslice_length hse (by omega)]
        omega
      · intro p hp
        rw [pyslice_length hse (by omega)] at hp
        rw [bt_pyslice (by omega)]
        rw [bt_splice_mid (by omega) (by omega) (by omega)]
        congr 1
        omega
    rw [hps]
  · intro j hj hne
    obtain ⟨hgaj, hse2, hel2⟩ := getsecaddr_wf ⟨h78, hpos, hdir, hmono, hbnd⟩ hj
    have hregj : ∀ p, secStart d j ≤ p → p < secEnd d j →
        bt (splice d (secStart d i) (secEnd d i) sec) p = bt d p := by
      intro p hp1 hp2
      rcases Nat.lt_or_ge j i with hji | hji
      · -- section j ends before section i starts
        have hje : secEnd d j ≤ secStart d i := by
          have hx : secEnd d j = secStart d (j + 1) := by
            unfold secEnd secStart
            rw [if_neg (by omega : ¬ j = rd16 d 76 - 1)]
          rw [hx]
          exact secStart_mono ⟨h78, hpos, hdir, hmono, hbnd⟩ (j + 1) i (by omega) hi
        exact bt_splice_lt (by omega) hsi
      · -- section j starts at or after section i's end
        have hji' : i < j := by omega
        have hjs : secEnd d i ≤ secStart d j := by
          have hx : secEnd d i = secStart d (i + 1) := by
            unfold secEnd secStart
            rw [if_neg (by omega : ¬ i = rd16 d 76 - 1)]
          rw [hx]
          exact secStart_mono ⟨h78, hpos, hdir, hmono, hbnd⟩ (i + 1) j (by omega) hj
        rw [bt_splice_hi (by omega) hsi]
        congr 1
        omega
    rw [readsection_eq ((hga' j hj).trans hgaj), readsection_eq hgaj,
      pyslice_eq_of_bt hregj hse2 hel2 (by omega)]

/-! ## Success inversions for the container layer -/

theorem getsecaddr_ok_inv {d : List Byte} {i s e2 : Nat}
    (H : getsecaddr d i = .ok (s, e2)) : i < rd16 d 76 := by
  unfold getsecaddr at H
  rw [bind_ok_iff] at H
  obtain ⟨nsec, hn, H⟩ := H
  rw [getint16_ok_iff] at hn
  obtain ⟨h78, rfl⟩ := hn
  split at H
  · exact absurd H (by simp)
  · rename_i hlt
    unfold number_of_pdb_records at hlt
    omega

theorem replacesection_ok_inv {d : List Byte} {i : Nat} {sec out : List Byte}
    (H : replacesection d i sec = .ok out) :
    ∃ s e2, getsecaddr d i = .ok (s, e2) ∧ s + sec.length = e2 ∧
      out = d.take s ++ sec ++ d.drop e2 := by
  unfold replacesection at H
  rw [bind_ok_iff] at H
  obtain ⟨⟨s, e2⟩, hga, H⟩ := H
  have H2 : (if s + sec.length = e2 then
      Except.ok (d.take s ++ sec ++ d.drop e2)
    else (Except.error "section length change in replacesection" :
      Except String (List Byte))) = Except.ok out := H
  refine ⟨s, e2, hga, ?_, ?_⟩
  · by_cases hc : s + sec.length = e2
    · exact hc
    · rw [if_neg hc] at H2
      exact absurd H2 (by simp)
  · by_cases hc : s + sec.length = e2
    · rw [if_pos hc] at H2
      injection H2 with H2
      exact H2.symm
    · rw [if_neg hc] at H2
      exact absurd H2 (by simp)

theorem readsection_ok_inv {d : List Byte} {i : Nat} {sec : List Byte}
    (H : readsection d i = .ok sec) :
    ∃ s e2, getsecaddr d i = .ok (s, e2) ∧ sec = pyslice d s e2 := by
  unfold readsection at H
  rw [bind_ok_iff] at H
  obtain ⟨⟨s, e2⟩, hga, H⟩ := H
  injection H with H
  exact ⟨s, e2, hga, H.symm⟩

/-- Full inversion of a successful run of the patcher: the primary-header
phase must have succeeded, and the result is either the container with only
section 0 replaced (combo = false, with one of the three non-combo conditions
holding on the *original* primary header), or the container with section 0
and the KF8 section both replaced (combo = true).  In particular no buffer
with only a partially applied patch is ever returned, and on `Except.error`
no buffer is returned at all. -/
theorem dualMobiMetaFix_inv {datain asin out : List Byte} {c : Bool}
    (H : dualMobiMetaFix datain asin = .ok (out, c)) :
    ∃ rec0 newrec0 d1 ver,
      readsection datain 0 = .ok rec0 ∧
      patchRec0First rec0 asin = .ok newrec0 ∧
      replacesection datain 0 newrec0 = .ok d1 ∧
      getint32 rec0 mobi_version = .ok ver ∧
      ((c = false ∧ out = d1 ∧
         (ver = 8 ∨ read_exth rec0 121 = .ok [] ∨
          (∃ v rest, read_exth rec0 121 = .ok (v :: rest) ∧
            getint32 v 0 = .ok 4294967295))) ∨
       (c = true ∧ ver ≠ 8 ∧
         ∃ v rest kf8 kfrec0 newkf,
           read_exth rec0 121 = .ok (v :: rest) ∧
           getint32 v 0 = .ok kf8 ∧ kf8 ≠ 4294967295 ∧
           readsection d1 kf8 = .ok kfrec0 ∧
           patchRec0Second kfrec0 asin = .ok newkf ∧
           replacesection d1 kf8 newkf = .ok out)) := by
  unfold dualMobiMetaFix at H
  rw [bind_ok_iff] at H
  obtain ⟨rec0, h0, H⟩ := H
  rw [bind_ok_iff] at H
  obtain ⟨newrec0, h1, H⟩ := H
  rw [bind_ok_iff] at H
  obtain ⟨d1, h2, H⟩ := H
  rw [bind_ok_iff] at H
  obtain ⟨ver, hv, H⟩ := H
  refine ⟨rec0, newrec0, d1, ver, h0, h1, h2, hv, ?_⟩
  by_cases hver : ver = 8
  · rw [if_pos hver] at H
    injection H with H
    have hc := congrArg (fun q => q.2) H
    have ho := congrArg (fun q => q.1) H
    simp only [] at hc ho
    exact Or.inl ⟨hc.symm, ho.symm, Or.inl hver⟩
  · rw [if_neg hver] at H
    rw [bind_ok_iff] at H
    obtain ⟨exth121, h121, H⟩ := H
    match exth121 with
    | [] =>
        injection H with H
        have hc := congrArg (fun q => q.2) H
        have ho := congrArg (fun q => q.1) H
        simp only [] at hc ho
        exact Or.inl ⟨hc.symm, ho.symm, Or.inr (Or.inl h121)⟩
    | v :: rest =>
        rw [bind_ok_iff] at H
        obtain ⟨kf8, hkf, H⟩ := H
        by_cases hsent : kf8 = 4294967295
        · rw [if_pos hsent] at H
          injection H with H
          have hc := congrArg (fun q => q.2) H
          have ho := congrArg (fun q => q.1) H
          simp only [] at hc ho
          exact Or.inl ⟨hc.symm, ho.symm,
            Or.inr (Or.inr ⟨v, rest, h121, hsent ▸ hkf⟩)⟩
        · rw [if_neg hsent] at H
          rw [bind_ok_iff] at H
          obtain ⟨kfrec0, h3, H⟩ := H
          rw [bind_ok_iff] at H
          obtain ⟨newkf, h4, H⟩ := H
          rw [bind_ok_iff] at H
          obtain ⟨d2, h5, H⟩ := H
          injection H with H
          have hc := congrArg (fun q => q.2) H
          have ho := congrArg (fun q => q.1) H
          simp only [] at hc ho
          exact Or.inr ⟨hc.symm, hver,
            v, rest, kf8, kfrec0, newkf, h121, hkf, hsent, h3, h4, ho ▸ h5⟩

/-- Length arithmetic for a length-preserving section replacement. -/
theorem replace_out_length {d : List Byte} {s e2 : Nat} {sec : List Byte}
    (hse : s ≤ e2) (hel : e2 ≤ d.length) (hlen : s + sec.length = e2) :
    (d.take s ++ sec ++ d.drop e2).length = d.length := by
  simp
  omega

/-! ## Patch-pass machinery

The constructor patches a header with three deletions followed by three
insertions.  The lemmas below package one deletion step and one insertion
step over a consistent header (`ExthOk` together with the arithmetic
consistency `12 + sumSizes L ≤ el ≤ title offset`, which holds of every
real header, where the title string follows the EXTH block), and then chain
them through a whole pass. -/

/-- Total declared size of the walked records. -/
def sumSizes (L : List (Nat × Nat × Nat)) : Nat := (L.map (fun r => r.2.2)).sum

theorem sumSizes_append (L1 L2 : List (Nat × Nat × Nat)) :
    sumSizes (L1 ++ L2) = sumSizes L1 + sumSizes L2 := by
  simp [sumSizes]

theorem sumSizes_cons (r : Nat × Nat × Nat) (L : List (Nat × Nat × Nat)) :
    sumSizes (r :: L) = r.2.2 + sumSizes L := by
  simp [sumSizes]

theorem sumSizes_map_shift (n : Nat) (L : List (Nat × Nat × Nat)) :
    sumSizes (L.map (fun r => (r.1 + n, r.2.1, r.2.2))) = sumSizes L := by
  induction L with
  | nil => rfl
  | cons r L ih => simp [sumSizes] at ih ⊢; omega

theorem sumSizes_map_sub (n : Nat) (L : List (Nat × Nat × Nat)) :
    sumSizes (L.map (fun r => (r.1 - n, r.2.1, r.2.2))) = sumSizes L := by
  induction L with
  | nil => rfl
  | cons r L ih => simp [sumSizes] at ih ⊢; omega

theorem sumSizes_mem_le {L : List (Nat × Nat × Nat)} {r : Nat × Nat × Nat}
    (h : r ∈ L) : r.2.2 ≤ sumSizes L := by
  induction L with
  | nil => cases h
  | cons q L ih =>
      rcases List.mem_cons.mp h with rfl | h'
      · rw [sumSizes_cons]; omega
      · rw [sumSizes_cons]; have := ih h'; omega

/-- Either no record of type `t` occurs, or the list splits at the first
record of type `t`. -/
theorem first_match_split (L : List (Nat × Nat × Nat)) (t : Nat) :
    (∀ r ∈ L, r.2.1 ≠ t) ∨
    ∃ pre o sz post, L = pre ++ (o, t, sz) :: post ∧ ∀ r ∈ pre, r.2.1 ≠ t := by
  induction L with
  | nil => exact Or.inl (by simp)
  | cons r L ih =>
      by_cases hr : r.2.1 = t
      · refine Or.inr ⟨[], r.1, r.2.2, L, ?_, by simp⟩
        rw [← hr]
        simp
      · rcases ih with hno | ⟨pre, o, sz, post, hL, hpre⟩
        · refine Or.inl ?_
          intro q hq
          rcases List.mem_cons.mp hq with rfl | hq'
          · exact hr
          · exact hno q hq'
        · refine Or.inr ⟨r :: pre, o, sz, post, by rw [hL]; rfl, ?_⟩
          intro q hq
          rcases List.mem_cons.mp hq with rfl | hq'
          · exact hr
          · exact hpre q hq'

theorem readFromWalk_nil (h : List Byte) (u : Nat) : readFromWalk h [] u = [] := rfl

theorem readFromWalk_append (h : List Byte) (L1 L2 : List (Nat × Nat × Nat)) (u : Nat) :
    readFromWalk h (L1 ++ L2) u = readFromWalk h L1 u ++ readFromWalk h L2 u := by
  simp [readFromWalk]

theorem readFromWalk_cons_match (h : List Byte) {r : Nat × Nat × Nat} {u : Nat}
    (hr : r.2.1 = u) (L : List (Nat × Nat × Nat)) :
    readFromWalk h (r :: L) u =
      pyslice h (r.1 + 8) (r.1 + r.2.2) :: readFromWalk h L u := by
  unfold readFromWalk
  rw [List.filterMap_cons_some (by simp [hr] : _ = some (pyslice h (r.1 + 8) (r.1 + r.2.2)))]

theorem readFromWalk_cons_nomatch (h : List Byte) {r : Nat × Nat × Nat} {u : Nat}
    (hr : r.2.1 ≠ u) (L : List (Nat × Nat × Nat)) :
    readFromWalk h (r :: L) u = readFromWalk h L u := by
  unfold readFromWalk
  rw [List.filterMap_cons_none (by simp [hr])]

theorem readFromWalk_nomatch (h : List Byte) {L : List (Nat × Nat × Nat)} {u : Nat}
    (hno : ∀ r ∈ L, r.2.1 ≠ u) : readFromWalk h L u = [] := by
  induction L with
  | nil => rfl
  | cons r L ih =>
      rw [readFromWalk_cons_nomatch h (hno r (List.mem_cons_self _ _))]
      exact ih (fun q hq => hno q (List.mem_cons_of_mem _ hq))

/-- One deletion step of the patcher on a consistent header: it always
succeeds, preserves the section length and the consistency invariants,
drops the first record of the requested type from that type's read set,
leaves every other type's read set unchanged, and keeps the zero padding
at the end of the section. -/
theorem del_step_ok {h : List Byte} {eb el en e : Nat} {L : List (Nat × Nat × Nat)}
    (W : ExthOk h eb el en L e) (t : Nat)
    (hels : 12 + sumSizes L ≤ el) (htl : el ≤ rd32 h 84) :
    ∃ o el' en' L' e', del_exth h t = .ok o ∧ ExthOk o eb el' en' L' e' ∧
      o.length = h.length ∧
      12 + sumSizes L' ≤ el' ∧ el' ≤ rd32 o 84 ∧
      el' ≤ el ∧ en' ≤ en ∧ e' ≤ e ∧ rd32 o 84 ≤ rd32 h 84 ∧
      (∀ u, readFromWalk o L' u =
        if u = t then (readFromWalk h L u).tail else readFromWalk h L u) ∧
      (∀ Z, Z + e ≤ h.length →
        (∀ q, h.length - Z ≤ q → q < h.length → bt h q = 0) →
        (∀ q, o.length - Z ≤ q → q < o.length → bt o q = 0)) := by
  rcases first_match_split L t with hno | ⟨pre, o0, sz, post, hL, hpre⟩
  · refine ⟨h, el, en, L, e, del_exth_wf_nomatch W hno, W, rfl, hels, le_trans htl (le_refl _), le_refl _, le_refl _, le_refl _, le_refl _, ?_, ?_⟩
    · intro u
      by_cases hu : u = t
      · subst hu
        rw [if_pos rfl, readFromWalk_nomatch h hno]
        rfl
      · rw [if_neg hu]
    · intro Z _ hzh q hq1 hq2
      exact hzh q hq1 hq2
  · have hmem : (o0, t, sz) ∈ L := by
      rw [hL]
      exact List.mem_append_right _ (List.mem_cons_self _ _)
    have hmb := exthWalk_mem W.walk _ hmem
    have hsz8 : 8 ≤ sz := W.sizes _ hmem
    have hszS : sz ≤ sumSizes L := sumSizes_mem_le hmem
    have hszel : sz ≤ el := by omega
    have hszt : sz ≤ rd32 h 84 := by omega
    have hel32 : el < 4294967296 := by
      have := W.elval
      have := rd32_lt h (eb + 4)
      omega
    have hen32 : en < 4294967296 := by
      have := W.enval
      have := rd32_lt h (eb + 8)
      omega
    obtain ⟨hdel, hlen, h84, Wd, hreads⟩ :=
      del_exth_wf_match W hL hpre hszt hszel hel32 hen32
    have ho12 : eb + 12 ≤ o0 := hmb.1
    have hoe : o0 + sz ≤ e := hmb.2.1
    have hfits := W.fits
    have hbe := W.title
    refine ⟨delRebuild h eb el en o0 sz, el - sz, en - 1,
      pre ++ post.map (fun r => (r.1 - sz, r.2.1, r.2.2)), e - sz,
      hdel, Wd, hlen, ?_, ?_, by omega, by omega, by omega, by omega, ?_, ?_⟩
    · rw [sumSizes_append, sumSizes_map_sub]
      have : sumSizes L = sumSizes pre + (sz + sumSizes post) := by
        rw [hL, sumSizes_append, sumSizes_cons]
      omega
    · rw [h84]
      omega
    · intro u
      rw [hreads u, hL, readFromWalk_append]
      by_cases hu : u = t
      · subst hu
        rw [if_pos rfl, readFromWalk_nomatch h hpre, readFromWalk_cons_match h rfl]
        simp
      · rw [if_neg hu, readFromWalk_cons_nomatch h (by simpa using fun hh => hu hh.symm)]
  -- zero-tail preservation
    · intro Z hZe hzh q hq1 hq2
      rw [hlen] at hq1 hq2
      by_cases hq : h.length - sz ≤ q
      · exact bt_delRebuild_tail hbe ho12 (by omega) hq
      · rw [bt_delRebuild_shift hbe ho12 (by omega) (by omega) (by omega)]
        exact hzh (q + sz) (by omega) (by omega)

theorem pyslice_tail_zero {h : List Byte} {s : Nat} (hs : s ≤ h.length)
    (hz : ∀ q, h.length - s ≤ q → q < h.length → bt h q = 0) :
    pyslice h (h.length - s) h.length = List.replicate s (0 : Byte) := by
  apply eq_of_bt
  · rw [pyslice_length (by omega) (le_refl _), List.length_replicate]
    omega
  · intro q hq
    rw [pyslice_length (by omega) (le_refl _)] at hq
    rw [bt_pyslice (by omega), bt_replicate_zero]
    exact hz _ (by omega) (by omega)

/-- One insertion step of the patcher on a consistent header with enough
zero padding: it succeeds, prepends the new record at the head of the
record list, preserves length and consistency, and consumes `8 + p.length`
bytes of the zero tail. -/
theorem add_step_ok {h : List Byte} {eb el en e t : Nat} {L : List (Nat × Nat × Nat)}
    {p : List Byte} (W : ExthOk h eb el en L e)
    (hels : 12 + sumSizes L ≤ el)
    (hsl : e + (8 + p.length) ≤ h.length)
    (hb1 : el + (8 + p.length) < 4294967296) (hb2 : en + 1 < 4294967296)
    (hb3 : t < 4294967296) (hb4 : rd32 h 84 + (8 + p.length) < 4294967296)
    (hz : ∀ q, h.length - (8 + p.length) ≤ q → q < h.length → bt h q = 0) :
    add_exth h t p = .ok (addResult h eb el en t p) ∧
    ExthOk (addResult h eb el en t p) eb (el + (8 + p.length)) (en + 1)
      ((eb + 12, t, 8 + p.length) ::
        L.map (fun r => (r.1 + (8 + p.length), r.2.1, r.2.2))) (e + (8 + p.length)) ∧
    (addResult h eb el en t p).length = h.length ∧
    12 + sumSizes ((eb + 12, t, 8 + p.length) ::
        L.map (fun r => (r.1 + (8 + p.length), r.2.1, r.2.2))) ≤ el + (8 + p.length) ∧
    rd32 (addResult h eb el en t p) 84 = rd32 h 84 + (8 + p.length) ∧
    (∀ u, readFromWalk (addResult h eb el en t p)
        ((eb + 12, t, 8 + p.length) ::
          L.map (fun r => (r.1 + (8 + p.length), r.2.1, r.2.2))) u =
      (if t = u then [p] else []) ++ readFromWalk h L u) ∧
    (∀ Z, Z + (e + (8 + p.length)) ≤ h.length →
      (∀ q, h.length - (Z + (8 + p.length)) ≤ q → q < h.length → bt h q = 0) →
      (∀ q, (addResult h eb el en t p).length - Z ≤ q →
        q < (addResult h eb el en t p).length → bt (addResult h eb el en t p) q = 0)) := by
  have hes := W.estart
  have hfits := W.fits
  have htz := pyslice_tail_zero (by omega) hz
  obtain ⟨hok, hlen, h84, W2, hreads⟩ := add_exth_wf_ok W hsl hb1 hb2 hb3 hb4 htz
  refine ⟨hok, W2, hlen, ?_, h84, hreads, ?_⟩
  · rw [sumSizes_cons, sumSizes_map_shift]
    show 12 + (8 + p.length + sumSizes L) ≤ el + (8 + p.length)
    omega
  · intro Z hZ hzh q hq1 hq2
    rw [hlen] at hq1 hq2
    have hbq : bt (addResult h eb el en t p) q = bt (addFull h eb el en t p) q := by
      unfold addResult
      exact bt_take hq2
    rw [hbq, bt_addFull_hi W.title W.eb12 (by omega)]
    exact hzh (q - (8 + p.length)) (by omega) (by omega)

theorem map_shift_shift (m n : Nat) (L : List (Nat × Nat × Nat)) :
    (L.map (fun r => (r.1 + m, r.2.1, r.2.2))).map (fun r => (r.1 + n, r.2.1, r.2.2)) =
      L.map (fun r => (r.1 + (m + n), r.2.1, r.2.2)) := by
  rw [List.map_map]
  apply List.map_congr_left
  intro r _
  show (r.1 + m + n, r.2.1, r.2.2) = (r.1 + (m + n), r.2.1, r.2.2)
  rw [Nat.add_assoc]

/-- A full primary-header patch pass (`del 501; del 113; del 504;
add 113 asin; add 504 asin; add 501 EBOK`) on a consistent header with
enough zero padding: it succeeds, preserves the section length and the
consistency invariants, leaves the three new records at the head of the
record list, drops the first pre-existing record of each managed type and
prepends the new payload to each managed type's read set, and leaves every
unmanaged type's read set unchanged. -/
theorem patchRec0First_ok {h a : List Byte} {eb el en e : Nat}
    {L : List (Nat × Nat × Nat)}
    (W : ExthOk h eb el en L e)
    (hels : 12 + sumSizes L ≤ el) (htl : el ≤ rd32 h 84)
    (hsl : e + (2 * (8 + a.length) + 12) ≤ h.length)
    (hz : ∀ q, h.length - (2 * (8 + a.length) + 12) ≤ q → q < h.length → bt h q = 0)
    (hb1 : el + (2 * (8 + a.length) + 12) < 4294967296)
    (hb2 : en + 3 < 4294967296)
    (hb4 : rd32 h 84 + (2 * (8 + a.length) + 12) < 4294967296) :
    ∃ o el' en' L' e',
      patchRec0First h a = .ok o ∧ ExthOk o eb el' en' L' e' ∧
      o.length = h.length ∧
      12 + sumSizes L' ≤ el' ∧ el' ≤ rd32 o 84 ∧
      el' ≤ el + (2 * (8 + a.length) + 12) ∧
      en' ≤ en + 3 ∧ e' ≤ e + (2 * (8 + a.length) + 12) ∧
      rd32 o 84 ≤ rd32 h 84 + (2 * (8 + a.length) + 12) ∧
      (∃ M, L' = (eb + 12, 501, 12) :: (eb + 24, 504, 8 + a.length) ::
        (eb + 24 + (8 + a.length), 113, 8 + a.length) :: M) ∧
      (∀ u, readFromWalk o L' u =
        (if u = 113 then [a] else if u = 504 then [a]
          else if u = 501 then [ebokBytes] else []) ++
        (if u = 113 ∨ u = 504 ∨ u = 501 then (readFromWalk h L u).tail
          else readFromWalk h L u)) ∧
      (∀ Z, Z + e + (2 * (8 + a.length) + 12) ≤ h.length →
        (∀ q, h.length - (Z + (2 * (8 + a.length) + 12)) ≤ q → q < h.length → bt h q = 0) →
        (∀ q, o.length - Z ≤ q → q < o.length → bt o q = 0)) := by
  obtain ⟨d1, el1, en1, L1, e1, hdel1, W1, hlen1, hels1, htl1, hle1, hen1, he1, h841,
    hreads1, hz1⟩ := del_step_ok W 501 hels htl
  obtain ⟨d2, el2, en2, L2, e2, hdel2, W2, hlen2, hels2, htl2, hle2, hen2, he2, h842,
    hreads2, hz2⟩ := del_step_ok W1 113 hels1 htl1
  obtain ⟨d3, el3, en3, L3, e3, hdel3, W3, hlen3, hels3, htl3, hle3, hen3, he3, h843,
    hreads3, hz3⟩ := del_step_ok W2 504 hels2 htl2
  -- zero tails carried through the deletions
  have hzd1 : ∀ q, d1.length - (2 * (8 + a.length) + 12) ≤ q → q < d1.length →
      bt d1 q = 0 := hz1 _ (by omega) hz
  have hzd2 : ∀ q, d2.length - (2 * (8 + a.length) + 12) ≤ q → q < d2.length →
      bt d2 q = 0 := hz2 _ (by omega) (by rw [hlen1] at hzd1 ⊢; exact hzd1)
  have hzd3 : ∀ q, d3.length - (2 * (8 + a.length) + 12) ≤ q → q < d3.length →
      bt d3 q = 0 := hz3 _ (by omega) (by rw [hlen2] at hzd2 ⊢; exact hzd2)
  have hE : ebokBytes.length = 4 := rfl
  -- first insertion: type 113, payload a
  obtain ⟨hadd4, W4, hlen4, hels4, h844, hreads4, hz4⟩ :=
    add_step_ok (t := 113) (p := a) W3 hels3 (by omega) (by omega) (by omega)
      (by omega) (by omega) (fun q h1 h2 => hzd3 q (by omega) h2)
  -- second insertion: type 504, payload a
  obtain ⟨hadd5, W5, hlen5, hels5, h845, hreads5, hz5⟩ :=
    add_step_ok (t := 504) (p := a) W4 hels4 (by omega) (by omega) (by omega)
      (by omega) (by omega)
      (fun q h1 h2 => hz4 (12 + (8 + a.length)) (by omega)
        (fun q2 g1 g2 => hzd3 q2 (by omega) g2) q (by omega) h2)
  -- third insertion: type 501, payload EBOK (4 bytes)
  obtain ⟨hadd6, W6, hlen6, hels6, h846, hreads6, hz6⟩ :=
    add_step_ok (t := 501) (p := ebokBytes) W5 hels5 (by omega) (by omega) (by omega)
      (by omega) (by omega)
      (fun q h1 h2 => hz5 12 (by omega)
        (fun q2 g1 g2 => hz4 (12 + (8 + a.length)) (by omega)
          (fun q3 f1 f2 => hzd3 q3 (by omega) f2) q2 (by omega) g2) q (by omega) h2)
  refine ⟨_, _, _, _, _, ?_, W6, ?_, ?_, ?_, ?_, ?_, ?_, ?_, ?_, ?_, ?_⟩
  · unfold patchRec0First
    rw [hdel1, okBind, hdel2, okBind, hdel3, okBind, hadd4, okBind, hadd5, okBind,
      hadd6]
  · omega
  · exact hels6
  · omega
  · omega
  · omega
  · omega
  · omega
  · refine ⟨List.map (fun r => (r.1 + (8 + ebokBytes.length), r.2.1, r.2.2))
      (List.map (fun r => (r.1 + (8 + a.length), r.2.1, r.2.2))
        (List.map (fun r => (r.1 + (8 + a.length), r.2.1, r.2.2)) L3)), ?_⟩
    simp only [List.map_cons, List.cons.injEq, Prod.mk.injEq, eq_self_iff_true,
      and_true, true_and]
    omega
  · intro u
    rw [hreads6 u, hreads5 u, hreads4 u, hreads3 u, hreads2 u, hreads1 u]
    by_cases hu1 : u = 113
    · subst hu1
      norm_num
    · by_cases hu2 : u = 504
      · subst hu2
        norm_num
      · by_cases hu3 : u = 501
        · subst hu3
          norm_num
        · simp [hu1, hu2, hu3, Ne.symm hu1, Ne.symm hu2, Ne.symm hu3]
  · intro Z hZ hzh q hq1 hq2
    refine hz6 Z (by omega) ?_ q hq1 hq2
    refine hz5 (Z + 12) (by omega) ?_
    refine hz4 (Z + 12 + (8 + a.length)) (by omega) ?_
    intro q2 g1 g2
    refine hz3 (Z + 12 + (8 + a.length) + (8 + a.length)) (by omega) ?_ q2 (by omega) g2
    refine hz2 _ (by omega) ?_
    refine hz1 _ (by omega) ?_
    intro q3 f1 f2
    exact hzh q3 (by omega) f2

/-- A full secondary-header patch pass (`del 501; del 113; del 504;
add 504 asin; add 113 asin; add 501 EBOK`) on a consistent header with
enough zero padding: it succeeds, preserves the section length and the
consistency invariants, leaves the three new records at the head of the
record list, drops the first pre-existing record of each managed type and
prepends the new payload to each managed type's read set, and leaves every
unmanaged type's read set unchanged. -/
theorem patchRec0Second_ok {h a : List Byte} {eb el en e : Nat}
    {L : List (Nat × Nat × Nat)}
    (W : ExthOk h eb el en L e)
    (hels : 12 + sumSizes L ≤ el) (htl : el ≤ rd32 h 84)
    (hsl : e + (2 * (8 + a.length) + 12) ≤ h.length)
    (hz : ∀ q, h.length - (2 * (8 + a.length) + 12) ≤ q → q < h.length → bt h q = 0)
    (hb1 : el + (2 * (8 + a.length) + 12) < 4294967296)
    (hb2 : en + 3 < 4294967296)
    (hb4 : rd32 h 84 + (2 * (8 + a.length) + 12) < 4294967296) :
    ∃ o el' en' L' e',
      patchRec0Second h a = .ok o ∧ ExthOk o eb el' en' L' e' ∧
      o.length = h.length ∧
      12 + sumSizes L' ≤ el' ∧ el' ≤ rd32 o 84 ∧
      el' ≤ el + (2 * (8 + a.length) + 12) ∧
      en' ≤ en + 3 ∧ e' ≤ e + (2 * (8 + a.length) + 12) ∧
      rd32 o 84 ≤ rd32 h 84 + (2 * (8 + a.length) + 12) ∧
      (∃ M, L' = (eb + 12, 501, 12) :: (eb + 24, 113, 8 + a.length) ::
        (eb + 24 + (8 + a.length), 504, 8 + a.length) :: M) ∧
      (∀ u, readFromWalk o L' u =
        (if u = 113 then [a] else if u = 504 then [a]
          else if u = 501 then [ebokBytes] else []) ++
        (if u = 113 ∨ u = 504 ∨ u = 501 then (readFromWalk h L u).tail
          else readFromWalk h L u)) ∧
      (∀ Z, Z + e + (2 * (8 + a.length) + 12) ≤ h.length →
        (∀ q, h.length - (Z + (2 * (8 + a.length) + 12)) ≤ q → q < h.length → bt h q = 0) →
        (∀ q, o.length - Z ≤ q → q < o.length → bt o q = 0)) := by
  obtain ⟨d1, el1, en1, L1, e1, hdel1, W1, hlen1, hels1, htl1, hle1, hen1, he1, h841,
    hreads1, hz1⟩ := del_step_ok W 501 hels htl
  obtain ⟨d2, el2, en2, L2, e2, hdel2, W2, hlen2, hels2, htl2, hle2, hen2, he2, h842,
    hreads2, hz2⟩ := del_step_ok W1 113 hels1 htl1
  obtain ⟨d3, el3, en3, L3, e3, hdel3, W3, hlen3, hels3, htl3, hle3, hen3, he3, h843,
    hreads3, hz3⟩ := del_step_ok W2 504 hels2 htl2
  -- zero tails carried through the deletions
  have hzd1 : ∀ q, d1.length - (2 * (8 + a.length) + 12) ≤ q → q < d1.length →
      bt d1 q = 0 := hz1 _ (by omega) hz
  have hzd2 : ∀ q, d2.length - (2 * (8 + a.length) + 12) ≤ q → q < d2.length →
      bt d2 q = 0 := hz2 _ (by omega) (by rw [hlen1] at hzd1 ⊢; exact hzd1)
  have hzd3 : ∀ q, d3.length - (2 * (8 + a.length) + 12) ≤ q → q < d3.length →
      bt d3 q = 0 := hz3 _ (by omega) (by rw [hlen2] at hzd2 ⊢; exact hzd2)
  have hE : ebokBytes.length = 4 := rfl
  -- first insertion: type 504, payload a
  obtain ⟨hadd4, W4, hlen4, hels4, h844, hreads4, hz4⟩ :=
    add_step_ok (t := 504) (p := a) W3 hels3 (by omega) (by omega) (by omega)
      (by omega) (by omega) (fun q h1 h2 => hzd3 q (by omega) h2)
  -- second insertion: type 113, payload a
  obtain ⟨hadd5, W5, hlen5, hels5, h845, hreads5, hz5⟩ :=
    add_step_ok (t := 113) (p := a) W4 hels4 (by omega) (by omega) (by omega)
      (by omega) (by omega)
      (fun q h1 h2 => hz4 (12 + (8 + a.length)) (by omega)
        (fun q2 g1 g2 => hzd3 q2 (by omega) g2) q (by omega) h2)
  -- third insertion: type 501, payload EBOK (4 bytes)
  obtain ⟨hadd6, W6, hlen6, hels6, h846, hreads6, hz6⟩ :=
    add_step_ok (t := 501) (p := ebokBytes) W5 hels5 (by omega) (by omega) (by omega)
      (by omega) (by omega)
      (fun q h1 h2 => hz5 12 (by omega)
        (fun q2 g1 g2 => hz4 (12 + (8 + a.length)) (by omega)
          (fun q3 f1 f2 => hzd3 q3 (by omega) f2) q2 (by omega) g2) q (by omega) h2)
  refine ⟨_, _, _, _, _, ?_, W6, ?_, ?_, ?_, ?_, ?_, ?_, ?_, ?_, ?_, ?_⟩
  · unfold patchRec0Second
    rw [hdel1, okBind, hdel2, okBind, hdel3, okBind, hadd4, okBind, hadd5, okBind,
      hadd6]
  · omega
  · exact hels6
  · omega
  · omega
  · omega
  · omega
  · omega
  · refine ⟨List.map (fun r => (r.1 + (8 + ebokBytes.length), r.2.1, r.2.2))
      (List.map (fun r => (r.1 + (8 + a.length), r.2.1, r.2.2))
        (List.map (fun r => (r.1 + (8 + a.length), r.2.1, r.2.2)) L3)), ?_⟩
    simp only [List.map_cons, List.cons.injEq, Prod.mk.injEq, eq_self_iff_true,
      and_true, true_and]
    omega
  · intro u
    rw [hreads6 u, hreads5 u, hreads4 u, hreads3 u, hreads2 u, hreads1 u]
    by_cases hu1 : u = 113
    · subst hu1
      norm_num
    · by_cases hu2 : u = 504
      · subst hu2
        norm_num
      · by_cases hu3 : u = 501
        · subst hu3
          norm_num
        · simp [hu1, hu2, hu3, Ne.symm hu1, Ne.symm hu2, Ne.symm hu3]
  · intro Z hZ hzh q hq1 hq2
    refine hz6 Z (by omega) ?_ q hq1 hq2
    refine hz5 (Z + 12) (by omega) ?_
    refine hz4 (Z + 12 + (8 + a.length)) (by omega) ?_
    intro q2 g1 g2
    refine hz3 (Z + 12 + (8 + a.length) + (8 + a.length)) (by omega) ?_ q2 (by omega) g2
    refine hz2 _ (by omega) ?_
    refine hz1 _ (by omega) ?_
    intro q3 f1 f2
    exact hzh q3 (by omega) f2


/-! ## Claim theorems: container-level claims -/

/-- **C1.** For every well-formed container and every identifier, a
successful run of the patcher (`DualMobiMetaFix` + `getresult`) returns a
buffer with exactly the byte length of the input container: every mutation
path goes through whole-section replacement, which preserves section
length. -/
theorem c1_patch_preserves_length {datain asin out : List Byte} {c : Bool}
    (W : wfContainer datain) (H : dualMobiMetaFix datain asin = .ok (out, c)) :
    out.length = datain.length := by
  obtain ⟨rec0, newrec0, d1, ver, h0, h1, h2, hv, hcase⟩ := dualMobiMetaFix_inv H
  obtain ⟨s0, e0, hga0, hlen0, hd1⟩ := replacesection_ok_inv h2
  have h0lt : 0 < rd16 datain 76 := getsecaddr_ok_inv hga0
  obtain ⟨hgaw, hse0, hee0⟩ := getsecaddr_wf W h0lt
  have hpair : (s0, e0) = (secStart datain 0, secEnd datain 0) := by
    have := hga0.symm.trans hgaw
    injection this
  have hs0 : s0 = secStart datain 0 := congrArg (fun q => q.1) hpair
  have he0 : e0 = secEnd datain 0 := congrArg (fun q => q.2) hpair
  obtain ⟨hrepl, hsplen, hwf1, hgapres, hrs, hro⟩ :=
    @replacesection_spec datain 0 newrec0 W h0lt (by omega)
  have hd1s : d1 = splice datain (secStart datain 0) (secEnd datain 0) newrec0 := by
    have := h2.symm.trans hrepl
    injection this
  have hd1len : d1.length = datain.length := by
    rw [hd1s, hsplen]
  rcases hcase with ⟨_, rfl, _⟩ | ⟨_, _, v, rest, kf8, kfrec0, newkf, _, _, _, h3, h4, h5⟩
  · exact hd1len
  · obtain ⟨s1, e1, hga1, hlen1, hout⟩ := replacesection_ok_inv h5
    have hklt : kf8 < rd16 d1 76 := getsecaddr_ok_inv hga1
    have hwf1' : wfContainer d1 := by
      rw [hd1s]
      exact hwf1
    obtain ⟨hgaw1, hse1, hee1⟩ := getsecaddr_wf hwf1' hklt
    have hpair1 : (s1, e1) = (secStart d1 kf8, secEnd d1 kf8) := by
      have := hga1.symm.trans hgaw1
      injection this
    have hs1 : s1 = secStart d1 kf8 := congrArg (fun q => q.1) hpair1
    have he1 : e1 = secEnd d1 kf8 := congrArg (fun q => q.2) hpair1
    rw [hout, replace_out_length (by omega) (by omega) hlen1]
    exact hd1len

/-- **C8.** For every container and valid section index (`getsecaddr`
resolves the bounds `s ≤ e2 ≤ len`), `replacesection` raises the
length-mismatch error iff the new bytes' length differs from the resolved
section length; on success the result replaces exactly that byte range and
leaves every byte outside it unchanged. -/
theorem c8_replacesection_exact {d : List Byte} {i s e2 : Nat}
    (hga : getsecaddr d i = .ok (s, e2)) (hse : s ≤ e2) (hel : e2 ≤ d.length) :
    ∀ sec : List Byte,
      (replacesection d i sec = .error "section length change in replacesection" ↔
        sec.length ≠ e2 - s) ∧
      (∀ out, replacesection d i sec = .ok out →
        out.length = d.length ∧
        pyslice out s e2 = sec ∧
        (∀ p, p < s → bt out p = bt d p) ∧
        (∀ p, e2 ≤ p → p < d.length → bt out p = bt d p)) := by
  intro sec
  have heq := replacesection_eq sec hga
  constructor
  · constructor
    · intro herr hlen
      rw [heq, if_pos (by omega)] at herr
      exact absurd herr (by simp)
    · intro hlen
      rw [heq, if_neg (by omega)]
  · intro out hok
    rw [heq] at hok
    by_cases hc : s + sec.length = e2
    · rw [if_pos hc] at hok
      injection hok with hok
      subst hok
      have hol : (splice d s e2 sec).length = d.length :=
        replace_out_length hse hel (by omega)
      refine ⟨hol, ?_, ?_, ?_⟩
      · show pyslice (splice d s e2 sec) s e2 = sec
        apply eq_of_bt
        · rw [pyslice_length hse (by omega)]
          omega
        · intro p hp
          rw [pyslice_length hse (by omega)] at hp
          rw [bt_pyslice (by omega), bt_splice_mid (by omega) (by omega) (by omega)]
          congr 1
          omega
      · intro p hp
        show bt (splice d s e2 sec) p = bt d p
        exact bt_splice_lt hp (by omega)
      · intro p hp1 hp2
        show bt (splice d s e2 sec) p = bt d p
        rw [bt_splice_hi (by omega) (by omega)]
        congr 1
        omega
    · rw [if_neg hc] at hok
      exact absurd hok (by simp)

/-- **C3.** The patcher decides whether to mutate a second header solely
from the original, pre-mutation primary header: when its version field is 8,
or it has no type-121 record, or the first type-121 record's payload is the
sentinel `0xFFFFFFFF`, the run returns the container with only section 0
replaced and `combo = false`, leaving every other section untouched;
otherwise the section indexed by that payload is read from the once-patched
container, patched with the same three record types, and written back. -/
theorem c3_combo_decision {datain asin rec0 newrec0 d1 : List Byte} {ver : Nat}
    (W : wfContainer datain)
    (h0 : readsection datain 0 = .ok rec0)
    (h1 : patchRec0First rec0 asin = .ok newrec0)
    (h2 : replacesection datain 0 newrec0 = .ok d1)
    (hv : getint32 rec0 mobi_version = .ok ver) :
    ((ver = 8 ∨ read_exth rec0 121 = .ok [] ∨
        (∃ v rest, read_exth rec0 121 = .ok (v :: rest) ∧
          getint32 v 0 = .ok 4294967295)) →
      dualMobiMetaFix datain asin = .ok (d1, false) ∧
      (∀ j, j < rd16 datain 76 → j ≠ 0 → readsection d1 j = readsection datain j)) ∧
    (∀ v rest kf8, ver ≠ 8 → read_exth rec0 121 = .ok (v :: rest) →
      getint32 v 0 = .ok kf8 → kf8 ≠ 4294967295 →
      dualMobiMetaFix datain asin = (do
        let kfrec0 ← readsection d1 kf8
        let newkf ← patchRec0Second kfrec0 asin
        let d2 ← replacesection d1 kf8 newkf
        (.ok (d2, true) : Except String (List Byte × Bool)))) := by
  have hunf : dualMobiMetaFix datain asin = (if ver = 8 then .ok (d1, false) else do
      let exth121 ← read_exth rec0 121
      match exth121 with
      | [] => .ok (d1, false)
      | v :: _ => do
          let datain_kf8 ← getint32 v 0
          if datain_kf8 = 4294967295 then
            .ok (d1, false)
          else do
            let datain_kfrec0 ← readsection d1 datain_kf8
            let newkf ← patchRec0Second datain_kfrec0 asin
            let d2 ← replacesection d1 datain_kf8 newkf
            .ok (d2, true)) := by
    unfold dualMobiMetaFix
    rw [h0, okBind, h1, okBind, h2, okBind, hv, okBind]
  have hpres : ∀ j, j < rd16 datain 76 → j ≠ 0 →
      readsection d1 j = readsection datain j := by
    intro j hj hj0
    obtain ⟨s0, e0, hga0, hlen0, hd1⟩ := replacesection_ok_inv h2
    have h0lt : 0 < rd16 datain 76 := getsecaddr_ok_inv hga0
    obtain ⟨hgaw, hse0, hee0⟩ := getsecaddr_wf W h0lt
    have hpair : (s0, e0) = (secStart datain 0, secEnd datain 0) := by
      have := hga0.symm.trans hgaw
      injection this
    have hs0 : s0 = secStart datain 0 := congrArg (fun q => q.1) hpair
    have he0 : e0 = secEnd datain 0 := congrArg (fun q => q.2) hpair
    obtain ⟨hrepl, hsplen, hwf1, hgapres, hrs, hro⟩ :=
      @replacesection_spec datain 0 newrec0 W h0lt (by omega)
    have hd1s : d1 = splice datain (secStart datain 0) (secEnd datain 0) newrec0 := by
      have := h2.symm.trans hrepl
      injection this
    rw [hd1s]
    exact hro j hj hj0
  constructor
  · intro hcond
    refine ⟨?_, hpres⟩
    rw [hunf]
    by_cases hv8 : ver = 8
    · rw [if_pos hv8]
    · rw [if_neg hv8]
      rcases hcond with hc | hc | ⟨v, rest, hc, hkf⟩
      · exact absurd hc hv8
      · rw [hc, okBind]
      · rw [hc, okBind]
        show (do
          let k ← getint32 v 0
          if k = 4294967295 then
            (Except.ok (d1, false) : Except String (List Byte × Bool))
          else do
            let kfrec0 ← readsection d1 k
            let newkf ← patchRec0Second kfrec0 asin
            let d2 ← replacesection d1 k newkf
            Except.ok (d2, true)) = Except.ok (d1, false)
        rw [hkf, okBind, if_pos rfl]
  · intro v rest kf8 hver h121 hkf hsent
    rw [hunf, if_neg hver, h121, okBind]
    show (do
      let k ← getint32 v 0
      if k = 4294967295 then
        (Except.ok (d1, false) : Except String (List Byte × Bool))
      else do
        let kfrec0 ← readsection d1 k
        let newkf ← patchRec0Second kfrec0 asin
        let d2 ← replacesection d1 k newkf
        Except.ok (d2, true)) = _
    rw [hkf, okBind, if_neg hsent]

/-- **C7.** Characterization of every successful run: the primary phase must
have fully succeeded, and either `combo = false` with the output being the
container with only section 0 replaced (and one of the three non-combo
conditions holding on the original primary header), or `combo = true` with
the output also carrying the fully patched KF8 section.  A buffer in which
only the primary header was mutated but the secondary phase failed is never
returned, since in the `Except` model any failed check aborts the whole
computation with `Except.error` and produces no buffer. -/
theorem c7_no_partial_output {datain asin out : List Byte} {c : Bool}
    (H : dualMobiMetaFix datain asin = .ok (out, c)) :
    ∃ rec0 newrec0 d1 ver,
      readsection datain 0 = .ok rec0 ∧
      patchRec0First rec0 asin = .ok newrec0 ∧
      replacesection datain 0 newrec0 = .ok d1 ∧
      getint32 rec0 mobi_version = .ok ver ∧
      ((c = false ∧ out = d1 ∧
         (ver = 8 ∨ read_exth rec0 121 = .ok [] ∨
          (∃ v rest, read_exth rec0 121 = .ok (v :: rest) ∧
            getint32 v 0 = .ok 4294967295))) ∨
       (c = true ∧ ver ≠ 8 ∧
         ∃ v rest kf8 kfrec0 newkf,
           read_exth rec0 121 = .ok (v :: rest) ∧
           getint32 v 0 = .ok kf8 ∧ kf8 ≠ 4294967295 ∧
           readsection d1 kf8 = .ok kfrec0 ∧
           patchRec0Second kfrec0 asin = .ok newkf ∧
           replacesection d1 kf8 newkf = .ok out)) :=
  dualMobiMetaFix_inv H

/-- **C5** (amended). On a consistent header with enough zero padding,
re-patching with the same identifier is idempotent for the three managed
record types: two successive patch passes both succeed, and the read set of
each managed type (113 alternate identifier, 504 canonical identifier, 501
content-type marker) after the second pass equals the read set after the
first pass — the second pass's deletions remove exactly the records the
first pass inserted.  This holds both for the primary-header pass and for
the secondary-header pass, the two passes `DualMobiMetaFix` applies to the
two headers of a combo file.  Unrestricted, the property fails: see the
counterexample, where the identifier bytes themselves begin with the EXTH
tag, the first pass rewrites the header-length field, the patched header
re-parses with a shifted EXTH base, and the type-113 read sets of the two
(both successful) runs differ. -/
theorem c5_repatch_idempotent {h a : List Byte} {eb el en e : Nat}
    {L : List (Nat × Nat × Nat)}
    (W : ExthOk h eb el en L e)
    (hels : 12 + sumSizes L ≤ el) (htl : el ≤ rd32 h 84)
    (hsl : e + 2 * (2 * (8 + a.length) + 12) ≤ h.length)
    (hz : ∀ q, h.length - 2 * (2 * (8 + a.length) + 12) ≤ q → q < h.length →
      bt h q = 0)
    (hb1 : el + 2 * (2 * (8 + a.length) + 12) < 4294967296)
    (hb2 : en + 6 < 4294967296)
    (hb4 : rd32 h 84 + 2 * (2 * (8 + a.length) + 12) < 4294967296) :
    (∃ o1 o2, patchRec0First h a = .ok o1 ∧ patchRec0First o1 a = .ok o2 ∧
      ∀ u, u = 113 ∨ u = 504 ∨ u = 501 → read_exth o2 u = read_exth o1 u) ∧
    (∃ o1 o2, patchRec0Second h a = .ok o1 ∧ patchRec0Second o1 a = .ok o2 ∧
      ∀ u, u = 113 ∨ u = 504 ∨ u = 501 → read_exth o2 u = read_exth o1 u) := by
  constructor
  · obtain ⟨o1, el1, en1, L1, e1, hp1, W1, hlen1, hels1, htl1, hle1, hen1, he1,
      h841, hhead1, hreads1, hz1⟩ :=
      patchRec0First_ok (a := a) W hels htl (by omega)
        (fun q h1 h2 => hz q (by omega) h2) (by omega) (by omega) (by omega)
    obtain ⟨o2, el2, en2, L2, e2, hp2, W2, hlen2, hels2, htl2, hle2, hen2, he2,
      h842, hhead2, hreads2, hz2⟩ :=
      patchRec0First_ok (a := a) W1 hels1 htl1 (by omega)
        (hz1 (2 * (8 + a.length) + 12) (by omega)
          (fun q h1 h2 => hz q (by omega) h2)) (by omega) (by omega) (by omega)
    refine ⟨o1, o2, hp1, hp2, ?_⟩
    intro u hu
    rw [read_exth_wf W2 u, read_exth_wf W1 u, hreads2 u, hreads1 u]
    rcases hu with rfl | rfl | rfl <;> simp
  · obtain ⟨o1, el1, en1, L1, e1, hp1, W1, hlen1, hels1, htl1, hle1, hen1, he1,
      h841, hhead1, hreads1, hz1⟩ :=
      patchRec0Second_ok (a := a) W hels htl (by omega)
        (fun q h1 h2 => hz q (by omega) h2) (by omega) (by omega) (by omega)
    obtain ⟨o2, el2, en2, L2, e2, hp2, W2, hlen2, hels2, htl2, hle2, hen2, he2,
      h842, hhead2, hreads2, hz2⟩ :=
      patchRec0Second_ok (a := a) W1 hels1 htl1 (by omega)
        (hz1 (2 * (8 + a.length) + 12) (by omega)
          (fun q h1 h2 => hz q (by omega) h2)) (by omega) (by omega) (by omega)
    refine ⟨o1, o2, hp1, hp2, ?_⟩
    intro u hu
    rw [read_exth_wf W2 u, read_exth_wf W1 u, hreads2 u, hreads1 u]
    rcases hu with rfl | rfl | rfl <;> simp

/-- **C10.** The patcher does not enforce the caller contract that the
identifier be non-empty: run with the empty identifier it succeeds on any
well-formed container whose (single-header, version-8) primary header is
consistent and carries at least 28 bytes of zero padding, and it inserts
records of types 113 and 504 whose declared total length is exactly 8 —
the 8-byte record header alone, with an empty payload — as the walk
entries `(⋅, 504, 8)` and `(⋅, 113, 8)` and the empty payloads in the
read sets show. -/
theorem c10_empty_asin {datain rec0 : List Byte} {eb el en e : Nat}
    {L : List (Nat × Nat × Nat)}
    (W : wfContainer datain)
    (h0 : readsection datain 0 = .ok rec0)
    (Wx : ExthOk rec0 eb el en L e)
    (hels : 12 + sumSizes L ≤ el) (htl : el ≤ rd32 rec0 84)
    (hsl : e + 28 ≤ rec0.length)
    (hz : ∀ q, rec0.length - 28 ≤ q → q < rec0.length → bt rec0 q = 0)
    (hb1 : el + 28 < 4294967296) (hb2 : en + 3 < 4294967296)
    (hb4 : rd32 rec0 84 + 28 < 4294967296)
    (hver : getint32 rec0 mobi_version = .ok 8) :
    ∃ out newrec0, dualMobiMetaFix datain [] = .ok (out, false) ∧
      readsection out 0 = .ok newrec0 ∧
      (∃ el' en' e' M, ExthOk newrec0 eb el' en'
        ((eb + 12, 501, 12) :: (eb + 24, 504, 8) :: (eb + 32, 113, 8) :: M) e') ∧
      read_exth newrec0 113 = .ok ([] :: (readFromWalk rec0 L 113).tail) ∧
      read_exth newrec0 504 = .ok ([] :: (readFromWalk rec0 L 504).tail) := by
  have h0l : ([] : List Byte).length = 0 := rfl
  obtain ⟨o1, el1, en1, L1, e1, hp1, W1, hlen1, hels1, htl1, hle1, hen1, he1,
    h841, hhead1, hreads1, hz1⟩ :=
    patchRec0First_ok (a := ([] : List Byte)) Wx hels htl (by omega)
      (fun q h1 h2 => hz q (by omega) h2) (by omega) (by omega) (by omega)
  -- the replaced section has exactly the original section length
  obtain ⟨s0, e0, hga, hsec⟩ := readsection_ok_inv h0
  have h0lt : 0 < rd16 datain 76 := getsecaddr_ok_inv hga
  obtain ⟨hgaw, hse0, hee0⟩ := getsecaddr_wf W h0lt
  have hpair : (s0, e0) = (secStart datain 0, secEnd datain 0) := by
    have := hga.symm.trans hgaw
    injection this
  have hs0 : s0 = secStart datain 0 := congrArg (fun q => q.1) hpair
  have he0 : e0 = secEnd datain 0 := congrArg (fun q => q.2) hpair
  have hreclen : rec0.length = secEnd datain 0 - secStart datain 0 := by
    rw [hsec, hs0, he0, pyslice_length (by omega) (by omega)]
  obtain ⟨hrepl, hsplen, hwf1, hgapres, hrs, hro⟩ :=
    @replacesection_spec datain 0 o1 W h0lt (by omega)
  have hdmf : dualMobiMetaFix datain [] =
      .ok (splice datain (secStart datain 0) (secEnd datain 0) o1, false) := by
    unfold dualMobiMetaFix
    rw [h0, okBind, hp1, okBind, hrepl, okBind, hver, okBind, if_pos rfl]
  obtain ⟨M, hM⟩ := hhead1
  have hLeq : L1 = (eb + 12, 501, 12) :: (eb + 24, 504, 8) :: (eb + 32, 113, 8) :: M := by
    rw [hM]
    simp only [List.cons.injEq, Prod.mk.injEq, eq_self_iff_true, and_true, true_and]
    omega
  refine ⟨_, o1, hdmf, hrs, ⟨el1, en1, e1, M, hLeq ▸ W1⟩, ?_, ?_⟩
  · rw [read_exth_wf W1 113, hreads1 113]
    simp
  · rw [read_exth_wf W1 504, hreads1 504]
    simp

/-- **C4** (amended). On a consistent header with genuine zero padding after
the record area (`e + (8+|p|) ≤ |h|` and the last `8+|p|` bytes zero),
adding a record of type `t` and then deleting type `t` restores the buffer
byte for byte: the deletion removes exactly the record the addition put at
the head of the record area and re-zeroes the tail it consumed.  Without
the slack hypothesis the claim is false (see the counterexample): a
pathological 87-byte buffer satisfies `add_exth`'s padding check while the
trimmed bytes overlap live data, and the round trip then fails. -/
theorem bindOk {α β : Type} (a : α) (f : α → Except String β) :
    (Except.ok a : Except String α).bind f = f a := rfl

set_option maxHeartbeats 2000000 in
theorem c4_add_del_roundtrip {h : List Byte} {eb el en e t : Nat}
    {L : List (Nat × Nat × Nat)} {p : List Byte}
    (W : ExthOk h eb el en L e)
    (hsl : e + (8 + p.length) ≤ h.length)
    (hb1 : el + (8 + p.length) < 4294967296) (hb2 : en + 1 < 4294967296)
    (hb3 : t < 4294967296) (hb4 : rd32 h 84 + (8 + p.length) < 4294967296)
    (htz : pyslice h (h.length - (8 + p.length)) h.length =
      List.replicate (8 + p.length) (0 : Byte)) :
    (add_exth h t p).bind (fun o => del_exth o t) = .ok h := by
  have hbe := W.title
  have he12 := W.eb12
  have hes := W.estart
  have hfits := W.fits
  obtain ⟨hok, hlen, h84, W2, hreads⟩ := add_exth_wf_ok W hsl hb1 hb2 hb3 hb4 htz
  rw [hok, bindOk]
  obtain ⟨hdel, hdlen, hd84, Wd, hreadsd⟩ :=
    del_exth_wf_match (t := t) (o := eb + 12) W2
      (show _ = ([] : List (Nat × Nat × Nat)) ++ _ :: _ from rfl) (by simp)
      (by rw [h84]; omega) (by omega) hb1 hb2
  rw [hdel]
  congr 1
  have h84' := rd32_lt h 84
  apply eq_of_bt
  · rw [hdlen, hlen]
  · intro q hq
    rw [hdlen, hlen] at hq
    have hA : ∀ j, j < h.length →
        bt (addResult h eb el en t p) j = bt (addFull h eb el en t p) j := by
      intro j hj
      unfold addResult
      exact bt_take hj
    have hoe2 : eb + 12 + (8 + p.length) ≤ (addResult h eb el en t p).length := by
      rw [hlen]
      omega
    rcases Nat.lt_or_ge q 84 with hr1 | hge84
    · rw [bt_delRebuild_lo hbe (by omega) hoe2 hr1, hA q (by omega),
        bt_addFull_lo hbe he12 hr1]
    rcases Nat.lt_or_ge q 88 with hr2 | hge88
    · rw [bt_delRebuild_title hbe (by omega) hoe2 hge84 hr2, h84]
      have hpr : pack32 (rd32 h 84 + (8 + p.length) - (8 + p.length)) =
          pack32 (rd32 h 84) := by
        congr 1
        omega
      rw [hpr, pack32_rd32 (show 84 + 4 ≤ h.length by omega), bt_pyslice (by omega)]
      congr 1
      omega
    rcases Nat.lt_or_ge q (eb + 4) with hr3 | hge4
    · rw [bt_delRebuild_pre hbe (by omega) hoe2 hge88 hr3, hA q (by omega),
        bt_addFull_pre hbe he12 hge88 hr3]
    rcases Nat.lt_or_ge q (eb + 8) with hr4 | hge8
    · rw [bt_delRebuild_el hbe (by omega) hoe2 hge4 hr4]
      have hpr : pack32 (el + (8 + p.length) - (8 + p.length)) = pack32 el := by
        congr 1
        omega
      rw [hpr, W.elval, pack32_rd32 (show eb + 4 + 4 ≤ h.length by omega),
        bt_pyslice (by omega)]
      congr 1
      omega
    rcases Nat.lt_or_ge q (eb + 12) with hr5 | hge12
    · rw [bt_delRebuild_en hbe (by omega) hoe2 hge8 hr5]
      have hpr : pack32 (en + 1 - 1) = pack32 en := rfl
      rw [hpr, W.enval, pack32_rd32 (show eb + 8 + 4 ≤ h.length by omega),
        bt_pyslice (by omega)]
      congr 1
      omega
    rcases Nat.lt_or_ge q (h.length - (8 + p.length)) with hr6 | hge6
    · rw [bt_delRebuild_shift hbe (by omega) hoe2 hge12 (by rw [hlen]; omega),
        hA (q + (8 + p.length)) (by omega),
        bt_addFull_hi hbe he12 (by omega)]
      congr 1
      omega
    · rw [bt_delRebuild_tail hbe (by omega) hoe2 (by rw [hlen]; omega)]
      have hz := congrArg (fun l => bt l (q - (h.length - (8 + p.length)))) htz
      simp only [] at hz
      rw [bt_pyslice (by omega), bt_replicate_zero] at hz
      rw [show h.length - (8 + p.length) + (q - (h.length - (8 + p.length))) = q
        from by omega] at hz
      exact hz.symm

/-- **C2** (amended). On a consistent header, `add_exth` fails with the
padding-violation error iff the `8 + |p|` trailing bytes it would trim are
not all zero; on success it keeps the section length, bumps the declared
EXTH length, the record count and the Title Offset field by the new
record's length, and writes the new record **at the start of the record
area** (`ebase + 12`), *before* the pre-existing records, which all shift
up by the new record's length — not after the existing record list as the
spec says. -/
theorem c2_add_record_prepends {h : List Byte} {eb el en e t : Nat}
    {L : List (Nat × Nat × Nat)} {p : List Byte}
    (W : ExthOk h eb el en L e)
    (hsl : e + (8 + p.length) ≤ h.length)
    (hb1 : el + (8 + p.length) < 4294967296) (hb2 : en + 1 < 4294967296)
    (hb3 : t < 4294967296) (hb4 : rd32 h 84 + (8 + p.length) < 4294967296) :
    (add_exth h t p = .error "add_exth: trimmed non-null bytes at end of section" ↔
      pyslice h (h.length - (8 + p.length)) h.length ≠
        List.replicate (8 + p.length) (0 : Byte)) ∧
    (pyslice h (h.length - (8 + p.length)) h.length =
        List.replicate (8 + p.length) (0 : Byte) →
      ∃ out, add_exth h t p = .ok out ∧
        out.length = h.length ∧
        rd32 out (eb + 4) = el + (8 + p.length) ∧
        rd32 out (eb + 8) = en + 1 ∧
        rd32 out 84 = rd32 h 84 + (8 + p.length) ∧
        pyslice out (eb + 12) (eb + 16) = pack32 t ∧
        pyslice out (eb + 16) (eb + 20) = pack32 (8 + p.length) ∧
        pyslice out (eb + 20) (eb + 20 + p.length) = p ∧
        (∀ q, eb + 12 ≤ q → q < e → bt out (q + (8 + p.length)) = bt h q) ∧
        (∀ q, q < 84 → bt out q = bt h q)) := by
  have hbe := W.title
  have he12 := W.eb12
  have hes := W.estart
  have hfits := W.fits
  have heq := add_exth_eq W hb1 hb2 hb3 hb4
  rw [addFull_tail W hsl] at heq
  constructor
  · constructor
    · intro herr hcon
      rw [heq, if_pos hcon] at herr
      exact absurd herr (by simp)
    · intro hcon
      rw [heq, if_neg hcon]
  · intro htz
    obtain ⟨hok, hlen, h84, W2, hreads⟩ := add_exth_wf_ok W hsl hb1 hb2 hb3 hb4 htz
    have hA : ∀ j, j < h.length →
        bt (addResult h eb el en t p) j = bt (addFull h eb el en t p) j := by
      intro j hj
      unfold addResult
      exact bt_take hj
    refine ⟨addResult h eb el en t p, hok, hlen, W2.elval.symm, W2.enval.symm, h84,
      ?_, ?_, ?_, ?_, ?_⟩
    · apply eq_of_bt
      · rw [pyslice_length (by omega) (by omega), length_pack32]
        omega
      · intro j hj
        rw [pyslice_length (by omega) (by omega)] at hj
        rw [bt_pyslice (by omega), hA (eb + 12 + j) (by omega),
          bt_addFull_mid hbe he12 (by omega) (by omega),
          bt_addMid_type (by omega) (by omega)]
        congr 1
        omega
    · apply eq_of_bt
      · rw [pyslice_length (by omega) (by omega), length_pack32]
        omega
      · intro j hj
        rw [pyslice_length (by omega) (by omega)] at hj
        rw [bt_pyslice (by omega), hA (eb + 16 + j) (by omega),
          bt_addFull_mid hbe he12 (by omega) (by omega),
          bt_addMid_size (by omega) (by omega)]
        congr 1
        omega
    · apply eq_of_bt
      · rw [pyslice_length (by omega) (by omega)]
        omega
      · intro j hj
        rw [pyslice_length (by omega) (by omega)] at hj
        rw [bt_pyslice (by omega), hA (eb + 20 + j) (by omega),
          bt_addFull_mid hbe he12 (by omega) (by omega),
          bt_addMid_payload (by omega)]
        congr 1
        omega
    · intro q hq1 hq2
      rw [hA (q + (8 + p.length)) (by omega), bt_addFull_hi hbe he12 (by omega)]
      congr 1
      omega
    · intro q hq
      rw [hA q (by omega), bt_addFull_lo hbe he12 hq]

/-- **C6** (amended). `del_exth` is a no-op (not an error) when no record of
the requested type exists; when one does, *provided the matched record's
declared size does not exceed the Title Offset value or the declared EXTH
length* (otherwise the 32-bit packs fail with a struct error, see the
counterexample), the call removes only the first match, decreases the
declared EXTH length, the record count and the Title Offset field by that
record's declared length, keeps the read sets of the remaining records,
and re-pads the tail with that many zero bytes. -/
theorem c6_del_first_match {h : List Byte} {eb el en e : Nat}
    {L : List (Nat × Nat × Nat)} (W : ExthOk h eb el en L e) (t : Nat) :
    ((∀ r ∈ L, r.2.1 ≠ t) → del_exth h t = .ok h) ∧
    (∀ pre o sz post, L = pre ++ (o, t, sz) :: post → (∀ r ∈ pre, r.2.1 ≠ t) →
      sz ≤ rd32 h 84 → sz ≤ el →
      del_exth h t = .ok (delRebuild h eb el en o sz) ∧
      (delRebuild h eb el en o sz).length = h.length ∧
      rd32 (delRebuild h eb el en o sz) (eb + 4) = el - sz ∧
      rd32 (delRebuild h eb el en o sz) (eb + 8) = en - 1 ∧
      rd32 (delRebuild h eb el en o sz) 84 = rd32 h 84 - sz ∧
      (∀ u, readFromWalk (delRebuild h eb el en o sz)
          (pre ++ post.map (fun r => (r.1 - sz, r.2.1, r.2.2))) u =
        readFromWalk h pre u ++ readFromWalk h post u) ∧
      (∀ q, h.length - sz ≤ q → q < h.length →
        bt (delRebuild h eb el en o sz) q = 0)) := by
  refine ⟨fun hno => del_exth_wf_nomatch W hno, ?_⟩
  intro pre o sz post hL hpre hszt hszel
  have hel32 : el < 4294967296 := by
    have := W.elval
    have := rd32_lt h (eb + 4)
    omega
  have hen32 : en < 4294967296 := by
    have := W.enval
    have := rd32_lt h (eb + 8)
    omega
  obtain ⟨hdel, hlen, h84, Wd, hreads⟩ :=
    del_exth_wf_match W hL hpre hszt hszel hel32 hen32
  have hmem : (o, t, sz) ∈ L := by
    rw [hL]
    exact List.mem_append_right _ (List.mem_cons_self _ _)
  have hmb := exthWalk_mem W.walk _ hmem
  have hbe := W.title
  have hfits := W.fits
  have ho12 : eb + 12 ≤ o := hmb.1
  have hoe : o + sz ≤ h.length := by
    have h1 : o + sz ≤ e := hmb.2.1
    have h2 := W.fits
    omega
  refine ⟨hdel, hlen, Wd.elval.symm, Wd.enval.symm, h84, hreads, ?_⟩
  intro q hq1 hq2
  exact bt_delRebuild_tail hbe ho12 hoe hq1

/-- **C9** (amended). Whenever the record walk is well-formed — every
record, the matched one included, lies inside the section — the rebuilt
buffer of the deletion path has exactly the original section length, so
the defensive size-invariant branch is not taken.  Outside this hypothesis
the branch *is* reachable: a section whose matched record's declared size
runs past the section end trips it (see the counterexample). -/
theorem c9_size_check_in_bounds {h : List Byte} {eb el en e : Nat}
    {L : List (Nat × Nat × Nat)} (W : ExthOk h eb el en L e) {t : Nat}
    {pre post : List (Nat × Nat × Nat)} {o sz : Nat}
    (hL : L = pre ++ (o, t, sz) :: post) (hpre : ∀ r ∈ pre, r.2.1 ≠ t)
    (hszt : sz ≤ rd32 h 84) (hszel : sz ≤ el) :
    (delRebuild h eb el en o sz).length = h.length ∧
    del_exth h t ≠ .error "del_exth: incorrect section size change" := by
  have hel32 : el < 4294967296 := by
    have := W.elval
    have := rd32_lt h (eb + 4)
    omega
  have hen32 : en < 4294967296 := by
    have := W.enval
    have := rd32_lt h (eb + 8)
    omega
  obtain ⟨hdel, hlen, h84, Wd, hreads⟩ :=
    del_exth_wf_match W hL hpre hszt hszel hel32 hen32
  refine ⟨hlen, ?_⟩
  rw [hdel]
  simp

/-! ## Concrete sections and containers

Hand-built buffers used to instantiate the theorems above: `REC8` is a
160-byte version-8 header section (EXTH at 88, one type-9 record, zero
padding from 116), `REC8L` the same section with a longer zero tail,
`CON1` a two-section container whose section 0 is `REC8`, and `H87`,
`CE9`, `CE6` are the pathological buffers of the counterexamples. -/

def zeros (n : Nat) : List Byte := List.replicate n 0

def pack16 (n : Nat) : List Byte := [byte (n / 256), byte n]

def REC8 : List Byte :=
  zeros 20 ++ pack32 72 ++ zeros 12 ++ pack32 8 ++ zeros 44 ++ pack32 112 ++
  exthTag ++ pack32 24 ++ pack32 1 ++ pack32 9 ++ pack32 12 ++
  [byte 1, byte 2, byte 3, byte 4] ++ zeros 48

def REC8L : List Byte :=
  zeros 20 ++ pack32 72 ++ zeros 12 ++ pack32 8 ++ zeros 44 ++ pack32 112 ++
  exthTag ++ pack32 24 ++ pack32 1 ++ pack32 9 ++ pack32 12 ++
  [byte 1, byte 2, byte 3, byte 4] ++ zeros 80

def AB : List Byte := [byte 65, byte 66]

def CON1 : List Byte :=
  zeros 76 ++ pack16 2 ++ pack32 96 ++ zeros 4 ++ pack32 256 ++ zeros 4 ++ zeros 2 ++
  REC8 ++ [byte 7, byte 7, byte 7, byte 7]

/-- An 87-byte buffer that `add_exth` accepts (the trimmed bytes happen to
be zero) although the record area has no real slack. -/
def H87 : List Byte :=
  zeros 20 ++ pack32 8 ++ exthTag ++ pack32 12 ++ pack32 0 ++ zeros 39 ++
  [byte 0, byte 0, byte 0, byte 247] ++ zeros 8

/-- A 120-byte section whose single record declares size 50 and runs past
the section end. -/
def CE9 : List Byte :=
  zeros 20 ++ pack32 72 ++ zeros 60 ++ pack32 100 ++ exthTag ++ pack32 62 ++ pack32 1 ++
  pack32 5 ++ pack32 50 ++ zeros 12

/-- A 160-byte section with a matching type-113 record whose Title Offset
field value (5) is smaller than the record's declared size (12). -/
def CE6 : List Byte :=
  zeros 20 ++ pack32 72 ++ zeros 60 ++ pack32 5 ++ exthTag ++ pack32 24 ++ pack32 1 ++
  pack32 113 ++ pack32 12 ++ [byte 1, byte 2, byte 3, byte 4] ++ zeros 48

def rec0p : List Byte := (patchRec0First REC8 AB).toOption.getD []

def con1d1 : List Byte := (replacesection CON1 0 rec0p).toOption.getD []

def c2out : List Byte := (add_exth REC8 113 AB).toOption.getD []

def c4out : List Byte := (add_exth H87 113 [byte 88]).toOption.getD []

instance (d : List Byte) : Decidable (wfContainer d) := by
  unfold wfContainer
  infer_instance

set_option maxRecDepth 100000 in
/-- `REC8` is a consistent header: EXTH base 88, declared length 24, one
record `(100, 9, 12)`, record area ending at 112. -/
theorem wREC8 : ExthOk REC8 88 24 1 [(100, 9, 12)] 112 :=
  ⟨by decide, by decide, by decide, by decide, by decide⟩

set_option maxRecDepth 100000 in
/-- `REC8L` is the same consistent header with a longer zero tail. -/
theorem wREC8L : ExthOk REC8L 88 24 1 [(100, 9, 12)] 112 :=
  ⟨by decide, by decide, by decide, by decide, by decide⟩

/-! ## Witnesses and counterexamples -/

set_option maxRecDepth 1000000 in
/-- Witness for C1 at the concrete container `CON1`. -/
theorem c1_patch_preserves_length_witness : con1d1.length = CON1.length :=
  c1_patch_preserves_length (by decide)
    (show dualMobiMetaFix CON1 AB = .ok (con1d1, false) from by decide)

set_option maxRecDepth 100000 in
/-- Counterexample to C2's record placement: `REC8` has no type-113 record
and one type-9 record at offset 100 (the start of the record area); after
a successful `add_exth` the type-113 record sits at offset 100 — before
the pre-existing record, which moved to 110 — not after the record list. -/
theorem c2_spec_order_counterexample :
    read_exth REC8 113 = .ok [] ∧
    add_exth REC8 113 AB = .ok c2out ∧
    pyslice REC8 100 104 = pack32 9 ∧
    pyslice c2out 100 104 = pack32 113 ∧
    pyslice c2out 110 114 = pack32 9 := by decide

set_option maxRecDepth 100000 in
/-- Witness for the amended C2 at `REC8`, type 113, payload `AB`. -/
theorem c2_add_record_prepends_witness :
    (add_exth REC8 113 AB = .error "add_exth: trimmed non-null bytes at end of section" ↔
      pyslice REC8 (REC8.length - (8 + AB.length)) REC8.length ≠
        List.replicate (8 + AB.length) (0 : Byte)) :=
  (c2_add_record_prepends (t := 113) (p := AB) wREC8
    (by decide) (by decide) (by decide) (by decide) (by decide)).1

set_option maxRecDepth 1000000 in
/-- Witness for C3 at `CON1` (version 8: no second header is patched). -/
theorem c3_combo_decision_witness : dualMobiMetaFix CON1 AB = .ok (con1d1, false) :=
  ((c3_combo_decision (by decide)
      (show readsection CON1 0 = .ok REC8 from by decide)
      (show patchRec0First REC8 AB = .ok rec0p from by decide)
      (show replacesection CON1 0 rec0p = .ok con1d1 from by decide)
      (show getint32 REC8 mobi_version = .ok 8 from by decide)).1
    (Or.inl rfl)).1

set_option maxRecDepth 100000 in
/-- Counterexample to C4 as stated: on the 87-byte buffer `H87`, which has
no type-113 record, `add_exth` succeeds, yet deleting the type again does
not return the original buffer — the deletion aborts with a struct error. -/
theorem c4_roundtrip_counterexample :
    read_exth H87 113 = .ok [] ∧
    add_exth H87 113 [byte 88] = .ok c4out ∧
    (add_exth H87 113 [byte 88]).bind (fun o => del_exth o 113) ≠ .ok H87 := by
  decide

set_option maxRecDepth 100000 in
/-- Witness for the amended C4 at `REC8`, type 113, payload `AB`. -/
theorem c4_add_del_roundtrip_witness :
    (add_exth REC8 113 AB).bind (fun o => del_exth o 113) = .ok REC8 :=
  c4_add_del_roundtrip (t := 113) (p := AB) wREC8
    (by decide) (by decide) (by decide) (by decide) (by decide) (by decide)

set_option maxRecDepth 1000000 in
/-- Witness for C5 at `REC8L` with identifier `AB`. -/
theorem c5_repatch_idempotent_witness :
    (∃ o1 o2, patchRec0First REC8L AB = .ok o1 ∧ patchRec0First o1 AB = .ok o2 ∧
      ∀ u, u = 113 ∨ u = 504 ∨ u = 501 → read_exth o2 u = read_exth o1 u) ∧
    (∃ o1 o2, patchRec0Second REC8L AB = .ok o1 ∧ patchRec0Second o1 AB = .ok o2 ∧
      ∀ u, u = 113 ∨ u = 504 ∨ u = 501 → read_exth o2 u = read_exth o1 u) :=
  c5_repatch_idempotent (a := AB) wREC8L (by decide) (by decide) (by decide)
    (fun q h1 h2 =>
      (by decide : ∀ q2, q2 < REC8L.length →
        (REC8L.length - 2 * (2 * (8 + AB.length) + 12) ≤ q2 → bt REC8L q2 = 0)) q h2 h1)
    (by decide) (by decide) (by decide)

/-- A 160-byte header section whose header-length field is zero, so the
EXTH block starts at 16 and its declared-length field aliases the
header-length field itself. -/
def CE5 : List Byte := zeros 16 ++ exthTag ++ zeros 140

/-- An identifier whose bytes begin with the EXTH tag. -/
def a5 : List Byte := exthTag ++ zeros 8

/-- A single-section container whose section 0 is `CE5`. -/
def CON5 : List Byte := zeros 76 ++ pack16 1 ++ pack32 88 ++ zeros 4 ++ zeros 2 ++ CE5

def ce5d1 : List Byte := ((dualMobiMetaFix CON5 a5).toOption.getD ([], true)).1

def ce5d2 : List Byte := ((dualMobiMetaFix ce5d1 a5).toOption.getD ([], true)).1

def ce5o1 : List Byte := (readsection ce5d1 0).toOption.getD []

def ce5o2 : List Byte := (readsection ce5d2 0).toOption.getD []

set_option maxRecDepth 1000000 in
/-- Counterexample to C5 as stated: on the container `CON5` with identifier
`a5` two successive patcher runs both succeed, yet the record set of
managed type 113 after the second run differs from the set after the
first.  The first pass's insertions rewrite the header-length field (the
EXTH base is 16, so the declared-length field sits at offset 20), the
patched header re-parses with the EXTH base shifted to 36 — where the
identifier bytes spell the EXTH tag — and the first pass's type-113
record, though present in the bytes, is no longer part of the walked
record list; the second pass then inserts a visible one. -/
theorem c5_idempotence_counterexample :
    dualMobiMetaFix CON5 a5 = .ok (ce5d1, false) ∧
    dualMobiMetaFix ce5d1 a5 = .ok (ce5d2, false) ∧
    readsection ce5d1 0 = .ok ce5o1 ∧
    readsection ce5d2 0 = .ok ce5o2 ∧
    read_exth ce5o1 113 = .ok [] ∧
    read_exth ce5o2 113 = .ok [exthTag ++ zeros 7 ++ [byte 20] ++ zeros 12] ∧
    read_exth ce5o2 113 ≠ read_exth ce5o1 113 := by decide

set_option maxRecDepth 100000 in
/-- Counterexample to C6's "no error" clause: `CE6` has a matching type-113
record, but the deletion path fails with a struct error because the Title
Offset value underflows. -/
theorem c6_del_error_counterexample :
    read_exth CE6 113 = .ok [[byte 1, byte 2, byte 3, byte 4]] ∧
    del_exth CE6 113 = .error "struct.error: argument out of range" := by decide

set_option maxRecDepth 100000 in
/-- Witness for the amended C6 at `REC8`, deleting its type-9 record. -/
theorem c6_del_first_match_witness :
    del_exth REC8 9 = .ok (delRebuild REC8 88 24 1 100 12) :=
  ((c6_del_first_match wREC8 9).2 [] 100 12 []
    (show ([(100, 9, 12)] : List (Nat × Nat × Nat)) = [] ++ (100, 9, 12) :: [] from rfl)
    (by simp) (by decide) (by decide)).1

set_option maxRecDepth 1000000 in
/-- Witness for C7 at `CON1`: the successful run decomposes into the full
primary phase with `combo = false`. -/
theorem c7_no_partial_output_witness :
    ∃ rec0 newrec0 d1 ver,
      readsection CON1 0 = .ok rec0 ∧
      patchRec0First rec0 AB = .ok newrec0 ∧
      replacesection CON1 0 newrec0 = .ok d1 ∧
      getint32 rec0 mobi_version = .ok ver ∧
      ((false = false ∧ con1d1 = d1 ∧
         (ver = 8 ∨ read_exth rec0 121 = .ok [] ∨
          (∃ v rest, read_exth rec0 121 = .ok (v :: rest) ∧
            getint32 v 0 = .ok 4294967295))) ∨
       (false = true ∧ ver ≠ 8 ∧
         ∃ v rest kf8 kfrec0 newkf,
           read_exth rec0 121 = .ok (v :: rest) ∧
           getint32 v 0 = .ok kf8 ∧ kf8 ≠ 4294967295 ∧
           readsection d1 kf8 = .ok kfrec0 ∧
           patchRec0Second kfrec0 AB = .ok newkf ∧
           replacesection d1 kf8 newkf = .ok con1d1)) :=
  c7_no_partial_output
    (show dualMobiMetaFix CON1 AB = .ok (con1d1, false) from by decide)

set_option maxRecDepth 1000000 in
/-- Witness for C8 at `CON1`, section 1 (4 bytes long): replacing it with a
1-byte section raises the length-mismatch error. -/
theorem c8_replacesection_exact_witness :
    replacesection CON1 1 [byte 9] =
      .error "section length change in replacesection" :=
  ((c8_replacesection_exact
      (show getsecaddr CON1 1 = .ok (256, 260) from by decide)
      (by decide) (by decide) [byte 9]).1).mpr (by decide)

set_option maxRecDepth 100000 in
/-- Counterexample to C9: on `CE9` the matched record's declared size runs
past the section end, the rebuilt buffer is longer than the section, and
the "unreachable" defensive branch fires. -/
theorem c9_size_error_counterexample :
    del_exth CE9 5 = .error "del_exth: incorrect section size change" := by decide

set_option maxRecDepth 100000 in
/-- Witness for the amended C9 at `REC8`. -/
theorem c9_size_check_in_bounds_witness :
    (delRebuild REC8 88 24 1 100 12).length = REC8.length ∧
    del_exth REC8 9 ≠ .error "del_exth: incorrect section size change" :=
  c9_size_check_in_bounds wREC8
    (show ([(100, 9, 12)] : List (Nat × Nat × Nat)) = [] ++ (100, 9, 12) :: [] from rfl)
    (by simp) (by decide) (by decide)

set_option maxRecDepth 1000000 in
/-- Witness for C10 at `CON1` with the empty identifier. -/
theorem c10_empty_asin_witness :
    ∃ out newrec0, dualMobiMetaFix CON1 [] = .ok (out, false) ∧
      readsection out 0 = .ok newrec0 ∧
      (∃ el' en' e' M, ExthOk newrec0 88 el' en'
        ((88 + 12, 501, 12) :: (88 + 24, 504, 8) :: (88 + 32, 113, 8) :: M) e') ∧
      read_exth newrec0 113 = .ok ([] :: (readFromWalk REC8 [(100, 9, 12)] 113).tail) ∧
      read_exth newrec0 504 = .ok ([] :: (readFromWalk REC8 [(100, 9, 12)] 504).tail) :=
  c10_empty_asin (by decide)
    (show readsection CON1 0 = .ok REC8 from by decide) wREC8
    (by decide) (by decide) (by decide)
    (fun q h1 h2 =>
      (by decide : ∀ q2, q2 < REC8.length →
        (REC8.length - 28 ≤ q2 → bt REC8 q2 = 0)) q h2 h1)
    (by decide) (by decide) (by decide)
    (show getint32 REC8 mobi_version = .ok 8 from by decide)

end DMF
